import Mathlib

/-!
Verification of the text-formatting and message-composition engine of the
careerexplorers repository (`src/lib/utils.ts`).

Strings are modelled as `List Char` (`JStr`), one element per UTF-16 code
unit of the JavaScript string (all inputs of interest are in the BMP, where
the two notions coincide).  JavaScript string primitives (`trim`, `slice`,
`lastIndexOf`) are reproduced with their clamping semantics; quantities that
can be negative in JavaScript (`lastIndexOf` results, `maxLength`,
`breakPoint`) are modelled as `Int`.

Loops of the source whose termination is not syntactically evident are
modelled with an explicit fuel parameter; a `none` result means the
JavaScript loop does not terminate.  In particular the section-header scan in
`parseJobDescription` calls `re.exec` in a `while` loop on regexes whose
flags are `im` (no `g`): such an `exec` is stateless and always returns the
first match, so the loop terminates only when there is no match at all, and
diverges otherwise.
-/

set_option maxRecDepth 100000

namespace CareerExplorers

/-- JavaScript string: list of UTF-16 code units (as `Char`s). -/
abbrev JStr := List Char

/-- Literal helper. -/
def str (s : String) : JStr := s.toList

/-- Characters removed by `String.prototype.trim` and matched by `\s`:
ECMAScript WhiteSpace and LineTerminator. -/
def jsWs (c : Char) : Bool :=
  c.toNat = 9 || c.toNat = 10 || c.toNat = 11 || c.toNat = 12 || c.toNat = 13 ||
  c.toNat = 32 || c.toNat = 160 || c.toNat = 0x1680 ||
  (0x2000 ≤ c.toNat && c.toNat ≤ 0x200A) ||
  c.toNat = 0x2028 || c.toNat = 0x2029 || c.toNat = 0x202F ||
  c.toNat = 0x205F || c.toNat = 0x3000 || c.toNat = 0xFEFF

/-- `s.trim()`. -/
def jsTrim (s : JStr) : JStr :=
  ((s.dropWhile jsWs).reverse.dropWhile jsWs).reverse

/-- Resolve a possibly negative `slice` index against a length (JS clamp/wrap). -/
def jsSliceIdx (len : Nat) (i : Int) : Nat :=
  if i < 0 then ((len : Int) + i).toNat else min i.toNat len

/-- `s.slice(i)`. -/
def jsSliceFrom (s : JStr) (i : Int) : JStr := s.drop (jsSliceIdx s.length i)

/-- `s.slice(0, i)`. -/
def jsSliceTo (s : JStr) (i : Int) : JStr := s.take (jsSliceIdx s.length i)

/-- Does `pat` occur in `s` starting at position `i`? -/
def matchesAt (s pat : JStr) (i : Nat) : Bool :=
  decide ((s.drop i).take pat.length = pat)

/-- Largest `k ≤ bound` with `pat` at `k`, scanning downwards. -/
def lastIndexOfAux (s pat : JStr) : Nat → Option Nat
  | 0 => if matchesAt s pat 0 then some 0 else none
  | k + 1 => if matchesAt s pat (k + 1) then some (k + 1) else lastIndexOfAux s pat k

/-- `s.lastIndexOf(pat, pos)`: the position is clamped into `[0, s.length]`,
and the result is the largest start index `≤` that clamp (`-1` if none). -/
def jsLastIndexOf (s pat : JStr) (pos : Int) : Int :=
  match lastIndexOfAux s pat (min (pos.toNat) s.length) with
  | some k => (k : Int)
  | none => -1

/-- Decimal digit as a character. -/
def digitChar (d : Nat) : Char := Char.ofNat (48 + d)

/-- Digit recursion, structural on a fuel bound (`fuel ≥ 1 + log10 n`
always holds for the canonical fuel `n + 1` used below, so the `[]` base is
unreachable). -/
def natDigitsAux : Nat → Nat → JStr
  | 0, _ => []
  | fuel + 1, n =>
    if n < 10 then [digitChar n]
    else natDigitsAux fuel (n / 10) ++ [digitChar (n % 10)]

/-- Decimal representation of a natural number (as produced by JS template
interpolation of a nonnegative integer). -/
def natDigits (n : Nat) : JStr := natDigitsAux (n + 1) n

/-- Number of decimal digits. -/
def numDigits (n : Nat) : Nat := (natDigits n).length

/-- `Math.ceil(a / b)` for natural `a`, positive `b`. -/
def ceilNatDiv (a b : Nat) : Nat := (a + b - 1) / b

/-- `getXCharLimit()` — reads `NEXT_PUBLIC_TWITTER_PREMIUM` from the process
environment; the environment value is made an explicit parameter here. -/
def getXCharLimit (premium : Bool) : Nat := if premium then 25000 else 280

/-- `getXThreadLimit()` — same environment read as `getXCharLimit`. -/
def getXThreadLimit (premium : Bool) : Nat := if premium then 24990 else 270

/-- The suffix `` ` (${k}/${d})` `` appended to thread chunks. -/
def mkSuffix (k d : Nat) : JStr :=
  [' ', '('] ++ natDigits k ++ ['/'] ++ natDigits d ++ [')']

/-- One step of the chunking `while` loop of `splitIntoThread`
(utils.ts lines 852-885), with fuel for the recursion.  `none` models
divergence of the loop. -/
def splitGo (charLimit est : Nat) : Nat → List JStr → JStr → Option (List JStr)
  | fuel, chunks, remaining =>
    if remaining.length = 0 then some chunks
    else
      let suffix := mkSuffix (chunks.length + 1) est
      let maxLength : Int := (charLimit : Int) - suffix.length
      if (remaining.length : Int) ≤ maxLength then
        -- last chunk fits; the no-suffix branch requires this to be the very
        -- first chunk (dead in practice, kept from the source)
        if remaining.length ≤ charLimit ∧ chunks.length = 0 then
          some (chunks ++ [remaining])
        else some (chunks ++ [remaining ++ suffix])
      else
        let sentenceEnd := jsLastIndexOf remaining (str ". ") maxLength
        let breakPoint : Int :=
          if maxLength < 2 * sentenceEnd then sentenceEnd + 1
          else
            let wordBreak := jsLastIndexOf remaining (str " ") maxLength
            if maxLength < 2 * wordBreak then wordBreak else maxLength
        let chunk := jsTrim (jsSliceTo remaining breakPoint)
        let rem2 := jsTrim (jsSliceFrom remaining breakPoint)
        match fuel with
        | 0 => none
        | fuel + 1 => splitGo charLimit est fuel (chunks ++ [chunk ++ suffix]) rem2

/-- `\d` of the thread-suffix regex. -/
def isDigitCh (c : Char) : Bool := 48 ≤ c.toNat && c.toNat ≤ 57

/-- `chunk.replace(new RegExp(`\\s*\\(${k}/\\d+\\)$`), ` (${k}/${n})`)`:
if the chunk ends with optional whitespace, `(`, the decimal digits of `k`,
`/`, a nonempty digit run, `)`, that tail is replaced by `` ` (${k}/${n})` ``;
otherwise the chunk is unchanged (the `$`-anchored pattern can only match
such a tail, and the leftmost match maximises the absorbed whitespace). -/
def replaceThreadSuffix (c : JStr) (k n : Nat) : JStr :=
  match c.reverse with
  | c0 :: rest =>
      if c0 = ')' then
        let ds := rest.takeWhile isDigitCh
        if ds.isEmpty then c
        else
          match rest.drop ds.length with
          | c1 :: rest3 =>
              if c1 = '/' then
                let kd := (natDigits k).reverse
                if rest3.take kd.length = kd then
                  match rest3.drop kd.length with
                  | c2 :: rest5 =>
                      if c2 = '(' then (rest5.dropWhile jsWs).reverse ++ mkSuffix k n
                      else c
                  | [] => c
                else c
              else c
          | [] => c
      else c
  | [] => c

/-- The final `chunks.map` of `splitIntoThread`, rewriting every suffix to the
true chunk count. -/
def renumberChunks (chunks : List JStr) : List JStr :=
  chunks.mapIdx (fun i c => replaceThreadSuffix c (i + 1) chunks.length)

/-- `splitIntoThread(text)` (utils.ts lines 838-892).  The premium flag is the
environment variable read by `getXCharLimit` / `getXThreadLimit`.  `none`
models divergence of the chunking loop. -/
def splitIntoThread (premium : Bool) (text : JStr) : Option (List JStr) :=
  let charLimit := getXCharLimit premium
  let threadLimit := getXThreadLimit premium
  if text.length ≤ charLimit then some [text]
  else
    (splitGo charLimit (ceilNatDiv text.length threadLimit) text.length [] text).map
      renumberChunks

/-- Result record of `getCharacterStatus`. -/
structure CharStatus where
  count : Nat
  remaining : Int
  isOverLimit : Bool
  needsThread : Bool
  threadCount : Nat
  charLimit : Nat
deriving DecidableEq, Repr

/-- `getCharacterStatus(text)` (utils.ts lines 897-920). -/
def getCharacterStatus (premium : Bool) (text : JStr) : Option CharStatus :=
  let charLimit := getXCharLimit premium
  let count := text.length
  let remaining : Int := (charLimit : Int) - (count : Int)
  let isOverLimit := decide (charLimit < count)
  let needsThread := decide (charLimit < count)
  if charLimit < count then
    (splitIntoThread premium text).map
      (fun cs => ⟨count, remaining, isOverLimit, needsThread, cs.length, charLimit⟩)
  else some ⟨count, remaining, isOverLimit, needsThread, 1, charLimit⟩

/-! ### Section-heading patterns (`SECTION_PATTERNS`, utils.ts lines 338-359)

Each regex (flags `im`) is an alternation of literal word sequences joined by
`\s+`, followed by `\s*:?\s*`, anchored at a line start.  Each alternative is
hand-compiled to a matcher `JStr → Option JStr` consuming the alternative and
returning the leftover suffix; alternatives are tried in source order, and
optional groups try the present branch first, exactly as the backtracking
regex engine does.  `\s+` before a literal is safely maximal because no
literal starts with whitespace. -/

/-- ASCII lower-casing (the `i` flag; all pattern letters are ASCII). -/
def lowerCh (c : Char) : Char :=
  if 65 ≤ c.toNat ∧ c.toNat ≤ 90 then Char.ofNat (c.toNat + 32) else c

/-- Case-insensitive literal matcher: consume `lit` from the head of `s`. -/
def litCI : JStr → JStr → Option JStr
  | [], s => some s
  | _ :: _, [] => none
  | c :: cs, x :: xs => if lowerCh x = lowerCh c then litCI cs xs else none

/-- `\s+` (maximal). -/
def wsPlus : JStr → Option JStr
  | [] => none
  | x :: xs => if jsWs x then some (xs.dropWhile jsWs) else none

/-- `\s*` (maximal). -/
def wsStar (s : JStr) : JStr := s.dropWhile jsWs

/-- The apostrophe character (for `'ll` / `'re`). -/
def apos : Char := Char.ofNat 39

/-- `about\s+(?:the\s+)?role` -/
def altAboutRole (s : JStr) : Option JStr := do
  let s ← litCI (str "about") s
  let s ← wsPlus s
  (do
    let s1 ← litCI (str "the") s
    let s2 ← wsPlus s1
    litCI (str "role") s2) <|> litCI (str "role") s

/-- Two literals joined by `\s+`. -/
def litPair (a b : String) (s : JStr) : Option JStr := do
  let s ← litCI (str a) s
  let s ← wsPlus s
  litCI (str b) s

/-- `what\s+you(?:'ll|\s+will)?\s+do` -/
def altWhatYouDo (s : JStr) : Option JStr := do
  let s ← litCI (str "what") s
  let s ← wsPlus s
  let s ← litCI (str "you") s
  (do
    let s1 ← litCI [apos, 'l', 'l'] s
    let s2 ← wsPlus s1
    litCI (str "do") s2) <|>
  (do
    let s1 ← wsPlus s
    let s2 ← litCI (str "will") s1
    let s3 ← wsPlus s2
    litCI (str "do") s3) <|>
  (do
    let s1 ← wsPlus s
    litCI (str "do") s1)

/-- `what\s+we(?:'re|\s+are)?\s+looking\s+for` -/
def altWhatWeLooking (s : JStr) : Option JStr := do
  let s ← litCI (str "what") s
  let s ← wsPlus s
  let s ← litCI (str "we") s
  let tail := fun (t : JStr) => do
    let t1 ← wsPlus t
    let t2 ← litCI (str "looking") t1
    let t3 ← wsPlus t2
    litCI (str "for") t3
  (do
    let s1 ← litCI [apos, 'r', 'e'] s
    tail s1) <|>
  (do
    let s1 ← wsPlus s
    let s2 ← litCI (str "are") s1
    tail s2) <|>
  tail s

/-- `qualification\s*(?:&|and)\s*experience` -/
def altQualExp (s : JStr) : Option JStr := do
  let s ← litCI (str "qualification") s
  let s := wsStar s
  let s ← litCI (str "&") s <|> litCI (str "and") s
  let s := wsStar s
  litCI (str "experience") s

/-- The `about` pattern group (alternatives in source order). -/
def aboutAlt (s : JStr) : Option JStr :=
  altAboutRole s <|> litCI (str "overview") s <|> litCI (str "summary") s <|>
    litCI (str "introduction") s <|> litPair "the" "role" s <|> litPair "role" "summary" s

/-- The `responsibilities` pattern group. -/
def responsibilitiesAlt (s : JStr) : Option JStr :=
  litCI (str "responsibilities") s <|> litPair "key" "responsibilities" s <|>
    altWhatYouDo s <|> litCI (str "duties") s <|> litPair "key" "duties" s <|>
    litPair "your" "role" s

/-- The `requirements` pattern group. -/
def requirementsAlt (s : JStr) : Option JStr :=
  litCI (str "requirements") s <|> litCI (str "qualifications") s <|> altQualExp s <|>
    altWhatWeLooking s <|> litPair "must" "have" s <|> litPair "must" "haves" s <|>
    litPair "skills" "required" s <|> litPair "you" "have" s

/-- The `benefits` pattern group. -/
def benefitsAlt (s : JStr) : Option JStr :=
  litCI (str "benefits") s <|> litCI (str "perks") s <|>
    (do
      let s1 ← litPair "what" "we" s
      let s2 ← wsPlus s1
      litCI (str "offer") s2) <|>
    litCI (str "compensation") s <|> litPair "we" "offer" s <|> litPair "our" "benefits" s

/-- The trailing `\s*:?\s*` of every section pattern. -/
def headTail (s : JStr) : JStr :=
  let s1 := wsStar s
  let s2 := match s1 with
    | c :: r => if c = ':' then r else s1
    | [] => s1
  wsStar s2

/-- Match length of a pattern at the head of `s` (`m[0].length`). -/
def matchLenAt (alt : JStr → Option JStr) (s : JStr) : Option Nat :=
  (alt s).map (fun rest => s.length - (headTail rest).length)

/-- ECMAScript LineTerminator: LF, CR, U+2028, U+2029.  A multiline `^`
matches at position 0 and immediately after any of these characters. -/
def isLineTerm (c : Char) : Bool :=
  c.toNat = 10 || c.toNat = 13 || c.toNat = 0x2028 || c.toNat = 0x2029

/-- Scan for the first multiline-anchored match: position 0 and every
position following a LineTerminator, left to right. -/
def scanPattern (alt : JStr → Option JStr) : JStr → Nat → Bool → Option (Nat × Nat)
  | [], idx, atStart =>
      if atStart then (matchLenAt alt []).map (fun len => (idx, len)) else none
  | c :: rest, idx, atStart =>
      if atStart then
        match matchLenAt alt (c :: rest) with
        | some len => some (idx, len)
        | none => scanPattern alt rest (idx + 1) (isLineTerm c)
      else scanPattern alt rest (idx + 1) (isLineTerm c)

/-- `re.exec` for a non-global section pattern: stateless first match,
returning (index, length). -/
def sectionFirstMatch (alt : JStr → Option JStr) (s : JStr) : Option (Nat × Nat) :=
  scanPattern alt s 0 true

/-- Section keys (`SECTION_ORDER`). -/
inductive SectionKey
  | about
  | responsibilities
  | requirements
  | benefits
  | other
deriving DecidableEq, Repr

/-- Pattern group of each key (`other` has no pattern). -/
def sectionAltOf : SectionKey → JStr → Option JStr
  | .about => aboutAlt
  | .responsibilities => responsibilitiesAlt
  | .requirements => requirementsAlt
  | .benefits => benefitsAlt
  | .other => fun _ => none

/-- One detected heading match. -/
structure SMatch where
  key : SectionKey
  index : Nat
  len : Nat
deriving DecidableEq, Repr

/-- The `while ((m = re.exec(trimmed)) !== null)` loop of
`parseJobDescription` (utils.ts lines 381-387).  The regexes lack the `g`
flag, so `exec` is stateless: when the pattern matches, the loop re-finds the
same first match forever.  `none` models that divergence. -/
def execLoop (k : SectionKey) (t : JStr) : Nat → List SMatch → Option (List SMatch)
  | fuel, acc =>
    match sectionFirstMatch (sectionAltOf k) t with
    | none => some acc
    | some m =>
      match fuel with
      | 0 => none
      | fuel + 1 => execLoop k t fuel (acc ++ [⟨k, m.1, m.2⟩])

/-- All four pattern loops in `SECTION_PATTERNS` order. -/
def collectMatches (t : JStr) (fuel : Nat) : Option (List SMatch) := do
  let m1 ← execLoop .about t fuel []
  let m2 ← execLoop .responsibilities t fuel []
  let m3 ← execLoop .requirements t fuel []
  let m4 ← execLoop .benefits t fuel []
  pure (m1 ++ m2 ++ m3 ++ m4)

/-- Stable insertion for `matches.sort((a, b) => a.index - b.index)`. -/
def insertByIndex (m : SMatch) : List SMatch → List SMatch
  | [] => [m]
  | x :: xs => if x.index ≤ m.index then x :: insertByIndex m xs else m :: x :: xs

/-- Stable sort by index (JS `Array.prototype.sort` is stable). -/
def sortByIndex : List SMatch → List SMatch
  | [] => []
  | x :: xs => insertByIndex x (sortByIndex xs)

/-- Overlap filter: keep a match only if its span overlaps no kept span. -/
def overlapFilter : List SMatch → List (Nat × Nat) → List SMatch
  | [], _ => []
  | m :: ms, seen =>
    if seen.any (fun r => decide (m.index < r.2) && decide (r.1 < m.index + m.len)) then
      overlapFilter ms seen
    else m :: overlapFilter ms (seen ++ [(m.index, m.index + m.len)])

/-- Per-key content buckets. -/
structure Sections where
  about : List JStr
  responsibilities : List JStr
  requirements : List JStr
  benefits : List JStr
  other : List JStr
deriving DecidableEq, Repr

/-- Empty buckets. -/
def emptySections : Sections := ⟨[], [], [], [], []⟩

/-- Append a content block to a key's bucket. -/
def pushSection (s : Sections) (k : SectionKey) (content : JStr) : Sections :=
  match k with
  | .about => { s with about := s.about ++ [content] }
  | .responsibilities => { s with responsibilities := s.responsibilities ++ [content] }
  | .requirements => { s with requirements := s.requirements ++ [content] }
  | .benefits => { s with benefits := s.benefits ++ [content] }
  | .other => { s with other := s.other ++ [content] }

/-- Slice content between consecutive surviving headings into buckets. -/
def buildSections (t : JStr) : List SMatch → Sections → Sections
  | [], secs => secs
  | [m], secs =>
      let start := m.index + m.len
      let content := jsTrim ((t.drop start).take (t.length - start))
      if content.isEmpty then secs else pushSection secs m.key content
  | m :: m2 :: ms, secs =>
      let start := m.index + m.len
      let content := jsTrim ((t.drop start).take (m2.index - start))
      buildSections t (m2 :: ms)
        (if content.isEmpty then secs else pushSection secs m.key content)

/-- Human labels (`sectionLabels`). -/
def sectionLabel : SectionKey → JStr
  | .about => str "About the role"
  | .responsibilities => str "Responsibilities"
  | .requirements => str "Requirements"
  | .benefits => str "Benefits"
  | .other => str "Other"

/-- Render one labelled part (`` `${label}:\n${contents.join('\n\n')}` ``). -/
def renderPart (k : SectionKey) (contents : List JStr) : JStr :=
  sectionLabel k ++ [':', '\n'] ++ List.intercalate (str "\n\n") contents

/-- Assemble parts in `SECTION_ORDER`, skipping empty buckets; `other` is
rendered without a label. -/
def renderSections (secs : Sections) : JStr :=
  let parts :=
    (if secs.about.isEmpty then [] else [renderPart .about secs.about]) ++
    (if secs.responsibilities.isEmpty then []
      else [renderPart .responsibilities secs.responsibilities]) ++
    (if secs.requirements.isEmpty then [] else [renderPart .requirements secs.requirements]) ++
    (if secs.benefits.isEmpty then [] else [renderPart .benefits secs.benefits]) ++
    (if secs.other.isEmpty then [] else [List.intercalate (str "\n\n") secs.other])
  List.intercalate (str "\n\n") parts

/-- `.replace(/\n{3,}/g, '\n\n')`: every maximal newline run of length at
least 3 becomes exactly 2 (runs of 1 or 2 are unchanged). -/
def collapseNlGo : JStr → Nat → JStr
  | [], _ => []
  | c :: rest, run =>
    if c = '\n' then (if run < 2 then ['\n'] else []) ++ collapseNlGo rest (run + 1)
    else c :: collapseNlGo rest 0

/-- Collapse 3+ consecutive newlines to exactly 2. -/
def collapseNl (s : JStr) : JStr := collapseNlGo s 0

/-- `parseJobDescription(raw)` (utils.ts lines 365-442).  `none` models the
divergence of the heading-scan loop (which happens exactly when some section
pattern matches the trimmed text); the assembly code below the loop is kept
although it is reachable only with an empty match list. -/
def parseJobDescription (fuel : Nat) (raw : JStr) : Option JStr :=
  let trimmed := jsTrim raw
  if trimmed.isEmpty then some raw
  else
    match collectMatches trimmed fuel with
    | none => none
    | some found =>
      if found.isEmpty then some raw
      else
        let uniq := overlapFilter (sortByIndex found) []
        let secs := buildSections trimmed uniq emptySections
        let secs2 :=
          match uniq with
          | [] => secs
          | m :: _ =>
            if 0 < m.index then
              let before := jsTrim (trimmed.take m.index)
              if before.isEmpty then secs else pushSection secs .other before
            else secs
        let result := jsTrim (collapseNl (renderSections secs2))
        if result.isEmpty then some raw else some result

/-! ### Apply-section helpers (utils.ts lines 632-702) -/

/-- `s.indexOf(pat)` (first occurrence, `-1` if none). -/
def jsIndexOf (s pat : JStr) : Int :=
  match (List.range (s.length + 1)).find? (fun i => matchesAt s pat i) with
  | some i => (i : Int)
  | none => -1

/-- `s.startsWith(pre)`. -/
def jsStartsWith (s pre : JStr) : Bool := decide (s.take pre.length = pre)

/-- ASCII letter. -/
def isLetterCh (c : Char) : Bool :=
  (65 ≤ c.toNat && c.toNat ≤ 90) || (97 ≤ c.toNat && c.toNat ≤ 122)

/-- `[a-zA-Z0-9._%+-]` (email local part). -/
def emailLocalCh (c : Char) : Bool :=
  isLetterCh c || isDigitCh c || c = '.' || c = '_' || c = '%' || c = '+' || c = '-'

/-- `[a-zA-Z0-9.-]` (email domain part). -/
def emailDomainCh (c : Char) : Bool :=
  isLetterCh c || isDigitCh c || c = '.' || c = '-'

/-- Anchored test `^[a-zA-Z0-9._%+-]+@[a-zA-Z0-9.-]+\.[a-zA-Z]{2,}$`. -/
def emailExact (s : JStr) : Bool :=
  match jsIndexOf s (str "@") with
  | .ofNat i =>
    let locPart := s.take i
    let rest := s.drop (i + 1)
    !locPart.isEmpty && locPart.all emailLocalCh &&
      (List.range rest.length).any (fun j =>
        decide (rest.getD j ' ' = '.') && decide (0 < j) &&
          (rest.take j).all emailDomainCh &&
          decide (2 ≤ rest.length - (j + 1)) && (rest.drop (j + 1)).all isLetterCh)
  | .negSucc _ => false

/-- `isEmailApplyLink` (utils.ts lines 645-650). -/
def isEmailApplyLink (applyLink : JStr) : Bool :=
  let val := jsTrim applyLink
  if val.isEmpty then false
  else if jsStartsWith val (str "mailto:") then true
  else emailExact val

/-- `getDisplayEmail` (utils.ts lines 653-659). -/
def getDisplayEmail (applyLink : JStr) : JStr :=
  let val := jsTrim applyLink
  if val.isEmpty then []
  else if jsStartsWith val (str "mailto:") then jsTrim (val.drop 7)
  else if emailExact val then val
  else []

/-- `getApplyHref` (utils.ts lines 632-642). -/
def getApplyHref (applyLink : JStr) : JStr :=
  let val := jsTrim applyLink
  if val.isEmpty then val
  else if jsStartsWith val (str "http://") || jsStartsWith val (str "https://") ||
      jsStartsWith val (str "mailto:") then val
  else if emailExact val then str "mailto:" ++ val
  else val

/-- Case-insensitive containment of `pat` in `s`. -/
def containsCI (s pat : JStr) : Bool :=
  (List.range (s.length + 1)).any (fun i =>
    decide (((s.drop i).take pat.length).map lowerCh = pat.map lowerCh))

/-- Case-insensitive suffix test. -/
def endsWithCI (s pat : JStr) : Bool :=
  decide (pat.length ≤ s.length) &&
    decide ((s.drop (s.length - pat.length)).map lowerCh = pat.map lowerCh)

/-- `isMyJobMagUrl` (utils.ts lines 662-666): `/myjobmag\.com\/job\//i` or
`/myjobmag\.com\/job$/i`. -/
def isMyJobMagUrl (url : JStr) : Bool :=
  let val := jsTrim url
  if val.isEmpty then false
  else containsCI val (str "myjobmag.com/job/") || endsWithCI val (str "myjobmag.com/job")

/-- `formatApplySection` (utils.ts lines 674-702).  The email arm of the
source reads `if (isEmail) { const email = ...; if (email) return cv; }` and
falls through when the displayed email is empty, hence the conjunction. -/
def formatApplySection (applyLink _company : JStr) (forTelegram : Bool)
    (sourceUrl : Option JStr) : JStr :=
  let val := jsTrim applyLink
  if val.isEmpty then []
  else if isEmailApplyLink val && !(getDisplayEmail val).isEmpty then
    str "Interested and qualified candidates should send their CVs to: " ++
      getDisplayEmail val
  else if isMyJobMagUrl val ||
      (match sourceUrl with | some su => decide (val = su) | none => false) then
    str "Interested and qualified? Apply via the original listing."
  else if forTelegram then
    str "Interested and qualified? <a href=\"" ++ getApplyHref val ++ str "\">Apply Now</a>."
  else
    str "Interested and qualified? Apply Now.\n" ++ val

/-! ### Twitter composer (utils.ts lines 732-802) -/

/-- `truncateForTwitter(text, maxChars)` (utils.ts lines 732-741). -/
def truncateForTwitter (text : JStr) (maxChars : Nat) : JStr :=
  let trimmed := jsTrim text
  if trimmed.length ≤ maxChars then trimmed
  else
    let cut := trimmed.take maxChars
    let lastSpace := jsLastIndexOf cut (str " ") (cut.length : Int)
    if (maxChars : Int) < 2 * lastSpace then jsTrim (cut.take lastSpace.toNat)
    else jsTrim cut

/-- `getFirstSentence(text, maxChars)` (utils.ts lines 744-754). -/
def getFirstSentence (text : JStr) (maxChars : Nat) : JStr :=
  let trimmed := jsTrim text
  if trimmed.isEmpty then []
  else
    let firstPeriod := jsIndexOf trimmed (str ". ")
    let firstNewline := jsIndexOf trimmed (str "\n")
    let e1 : Int := (trimmed.length : Int)
    let e2 : Int :=
      if 0 < firstPeriod ∧ firstPeriod < (maxChars : Int) then min e1 (firstPeriod + 1) else e1
    let e3 : Int :=
      if 0 < firstNewline ∧ firstNewline < (maxChars : Int) then min e2 firstNewline else e2
    let sentence := jsTrim (trimmed.take e3.toNat)
    truncateForTwitter sentence maxChars

/-- `parseLocationAndType(location, jobType)` (utils.ts lines 757-770). -/
def parseLocationAndType (location jobType : JStr) : JStr × JStr :=
  let loc := jsTrim location
  let type := jsTrim jobType
  if type.isEmpty then (loc, [])
  else
    let parts := ((type.splitOn '|').map jsTrim).filter (fun p => !p.isEmpty)
    match parts with
    | p1 :: p2 :: rest =>
      let employmentType := List.intercalate (str " | ") (p2 :: rest)
      let locationLine := if loc.isEmpty then p1 else loc ++ str " | " ++ p1
      (locationLine, employmentType)
    | _ =>
      let locationLine := if loc.isEmpty then type else loc ++ str " | " ++ type
      (locationLine, [])

/-- Job record (`JobData`). -/
structure JobData where
  title : JStr
  company : JStr
  location : JStr
  jobType : JStr
  description : JStr
  applyLink : JStr
  hashtags : List JStr
  image : Option JStr := none
deriving DecidableEq, Repr

/-- `` `#${tag.replace(/^#/, '')}` ``: strip one leading `#`, then prefix `#`. -/
def hashTag (tag : JStr) : JStr :=
  '#' :: (match tag with
    | c :: rest => if c = '#' then rest else tag
    | [] => [])

/-- `"We're hiring! "`. -/
def weAreHiring : JStr := str "We" ++ [apos] ++ str "re hiring! "

/-- `formatTwitterMessage(job)` (utils.ts lines 775-802).  Divergence of
`parseJobDescription` propagates (`none`). -/
def formatTwitterMessage (fuel : Nat) (job : JobData) : Option JStr :=
  let hashtags :=
    if job.hashtags.isEmpty then []
    else ' ' :: List.intercalate [' '] (job.hashtags.map hashTag)
  match parseJobDescription fuel job.description with
  | none => none
  | some description =>
    let firstSentence := getFirstSentence job.description 100
    let header :=
      if (jsTrim job.company).isEmpty then job.title
      else job.title ++ str " at " ++ job.company
    let lt := parseLocationAndType job.location job.jobType
    let metaLines :=
      (if lt.1.isEmpty then [] else [lt.1]) ++ (if lt.2.isEmpty then [] else [lt.2])
    let metaBlock :=
      if metaLines.isEmpty then str "\n\n"
      else '\n' :: List.intercalate ['\n'] metaLines ++ str "\n\n"
    let applySection := formatApplySection job.applyLink job.company false none
    let intro :=
      if firstSentence.isEmpty then []
      else
        weAreHiring ++ firstSentence ++
          (if jsStartsWith firstSentence.reverse ['.'] then [] else ['.']) ++ str "\n\n"
    some (header ++ metaBlock ++ intro ++ description ++ str "\n\n" ++ applySection ++ hashtags)

/-- Invariant of one chunk produced by the chunking loop: it is a
whitespace-trimmed body followed by the suffix `" (i+1/est)"`, and body plus
suffix fit in 281 characters (the sentence-break branch can overshoot
`maxLength` by exactly one). -/
def ChunkOk (est i : Nat) (c : JStr) : Prop :=
  ∃ body, c = body ++ mkSuffix (i + 1) est ∧
    body.length + (mkSuffix (i + 1) est).length ≤ 281 ∧
    body.reverse.dropWhile jsWs = body.reverse

/-- All chunks of a list satisfy `ChunkOk` at their positions (offset `s`). -/
def ChunksOk (est : Nat) : Nat → List JStr → Prop
  | _, [] => True
  | s, c :: rest => ChunkOk est s c ∧ ChunksOk est (s + 1) rest

/-! ### Hashtag generator for scraped jobs (utils.ts lines 926-1003) -/

/-- Scraped-job record (`ConciseJobData`). -/
structure ConciseJobData where
  id : JStr
  title : JStr
  company : JStr
  location : JStr
  jobType : JStr
  description : JStr
  applyUrl : JStr
  sourceUrl : JStr
deriving DecidableEq, Repr

/-- Case-sensitive `s.includes(pat)`. -/
def containsStr (s pat : JStr) : Bool :=
  (List.range (s.length + 1)).any (fun i => matchesAt s pat i)

/-- `s.toLowerCase()` (ASCII; all compared keywords are ASCII). -/
def lowerStr (s : JStr) : JStr := s.map lowerCh

/-- Does a matcher succeed anywhere in `s` (regex `.test`)? -/
def searchSeq (m : JStr → Option JStr) (s : JStr) : Bool :=
  (List.range (s.length + 1)).any (fun i => (m (s.drop i)).isSome)

/-- `JOB_RELEVANT_KEYWORDS`:
`/job|hire|career|lagos|nigeria|remote|tech|work|recruit/i.test`. -/
def jobRelevantTest (t : JStr) : Bool :=
  containsCI t (str "job") || containsCI t (str "hire") || containsCI t (str "career") ||
    containsCI t (str "lagos") || containsCI t (str "nigeria") ||
    containsCI t (str "remote") || containsCI t (str "tech") ||
    containsCI t (str "work") || containsCI t (str "recruit")

/-- `tag.replace(/^#/, '')`: strip at most one leading `#`. -/
def stripOneHash (t : JStr) : JStr :=
  match t with
  | c :: rest => if c = '#' then rest else t
  | [] => []

/-- `tag.replace(/^#/, '').trim()` — the dedup key of `generateJobHashtags`
(case-sensitive). -/
def normTag (t : JStr) : JStr := jsTrim (stripOneHash t)

/-- The trending-hashtag loop (utils.ts lines 985-992): state is
`(seen, result)`. -/
def addTagsTrending : List JStr → List JStr → List JStr → List JStr × List JStr
  | [], seen, result => (seen, result)
  | t :: ts, seen, result =>
    let normalized := normTag t
    if !normalized.isEmpty && !(seen.any (fun u => decide (u = normalized))) then
      addTagsTrending ts (seen ++ [normalized]) (result ++ [normalized])
    else addTagsTrending ts seen result

/-- The job-tag loop (utils.ts lines 994-1000): as above but capped at 5. -/
def addTagsJob : List JStr → List JStr → List JStr → List JStr × List JStr
  | [], seen, result => (seen, result)
  | t :: ts, seen, result =>
    let normalized := normTag t
    if !normalized.isEmpty && !(seen.any (fun u => decide (u = normalized))) &&
        decide (result.length < 5) then
      addTagsJob ts (seen ++ [normalized]) (result ++ [normalized])
    else addTagsJob ts seen result

/-- The trending-hashtag merge of `generateJobHashtags` (utils.ts lines
982-992): up to 3 trending tags, job-relevant ones first, deduplicated into
the `(seen, result)` state. -/
def trendingStart (trendingHashtags : Option (List JStr)) : List JStr × List JStr :=
  match trendingHashtags with
  | some trending =>
    if trending.isEmpty then ([], [])
    else
      let jobRelevant := trending.filter jobRelevantTest
      let toAdd :=
        (jobRelevant ++
          trending.filter (fun t => !(jobRelevant.any (fun u => decide (u = t))))).take 3
      addTagsTrending toAdd [] []
  | none => ([], [])

/-- `generateJobHashtags(job, trendingHashtags?)` (utils.ts lines 946-1003). -/
def generateJobHashtags (job : ConciseJobData) (trendingHashtags : Option (List JStr)) :
    List JStr :=
  let locationLower := lowerStr job.location
  let typeLower := lowerStr job.jobType
  let titleLower := lowerStr job.title
  let jobTags : List JStr :=
    (if containsStr locationLower (str "lagos") then [str "Lagos"] else []) ++
    (if containsStr locationLower (str "abuja") then [str "Abuja"] else []) ++
    (if containsStr locationLower (str "port harcourt") then [str "PortHarcourt"] else []) ++
    (if containsStr locationLower (str "remote") then [str "RemoteJobs"] else []) ++
    (if containsStr typeLower (str "full") then [str "FullTime"] else []) ++
    (if containsStr typeLower (str "part") then [str "PartTime"] else []) ++
    (if containsStr typeLower (str "intern") then [str "Internship"] else []) ++
    (if containsStr typeLower (str "contract") then [str "Contract"] else []) ++
    (if containsCI titleLower (str "engineer") || containsCI titleLower (str "developer") ||
        containsCI titleLower (str "programmer") || containsCI titleLower (str "software")
      then [str "TechJobs"] else []) ++
    (if containsCI titleLower (str "manager") || containsCI titleLower (str "management")
      then [str "Management"] else []) ++
    (if containsCI titleLower (str "sales") || searchSeq (litPair "business" "development")
        titleLower then [str "Sales"] else []) ++
    (if containsCI titleLower (str "marketing") || containsCI titleLower (str "brand")
      then [str "Marketing"] else []) ++
    (if containsCI titleLower (str "finance") || containsCI titleLower (str "accountant") ||
        containsCI titleLower (str "accounting") then [str "Finance"] else []) ++
    (if containsCI titleLower (str "hr") || searchSeq (litPair "human" "resource") titleLower
      then [str "HR"] else []) ++
    (if containsCI titleLower (str "design") || containsCI titleLower (str "creative")
      then [str "Design"] else []) ++
    (if containsCI titleLower (str "data") || containsCI titleLower (str "analyst")
      then [str "DataJobs"] else [])
  let jobTags2 :=
    if jobTags.any (fun t => containsCI t (str "nigeriajobs")) then jobTags
    else str "NigeriaJobs" :: jobTags
  let jobTags3 :=
    if jobTags2.any (fun t => containsCI t (str "hiring")) then jobTags2
    else str "Hiring" :: jobTags2
  let start := trendingStart trendingHashtags
  let final := addTagsJob jobTags3 start.1 start.2
  final.2.take 5

/-- Modelled from the spec claim wording: the claim's normalization
lower-cases the tag and strips a leading `#`. -/
def specNormalizeTag (t : JStr) : JStr := lowerStr (stripOneHash t)

/-- A scraped job located in Lagos (all other fields empty). -/
def c5job : ConciseJobData := ⟨[], [], [], str "Lagos", [], [], [], []⟩

/-! ### Free-text job extractor (`parsePastedJob`, utils.ts lines 455-627)

Each regex of the extractor is hand-compiled to a matcher over `JStr`;
greedy pieces try the longest consumption first and lazy pieces the
shortest, with explicit backtracking (`findSome?` over candidate split
points) where a later literal constrains an earlier class run. -/

/-- Case-sensitive literal matcher. -/
def litCS : JStr → JStr → Option JStr
  | [], s => some s
  | _ :: _, [] => none
  | c :: cs, x :: xs => if x = c then litCS cs xs else none

/-- Regex word character (`\w`, for `\b` boundaries). -/
def isWordCh (c : Char) : Bool := isLetterCh c || isDigitCh c || c = '_'

/-- `[-a-zA-Z0-9@:%._+~#=]` (URL host class). -/
def urlClass1 (c : Char) : Bool :=
  c = '-' || isLetterCh c || isDigitCh c || c = '@' || c = ':' || c = '%' || c = '.' ||
    c = '_' || c = '+' || c = '~' || c = '#' || c = '='

/-- `[a-zA-Z0-9()]` (URL TLD class). -/
def urlClass2 (c : Char) : Bool := isLetterCh c || isDigitCh c || c = '(' || c = ')'

/-- `[-a-zA-Z0-9()@:%_+.~#?&/=]` (URL path class). -/
def urlClass3 (c : Char) : Bool :=
  c = '-' || isLetterCh c || isDigitCh c || c = '(' || c = ')' || c = '@' || c = ':' ||
    c = '%' || c = '_' || c = '+' || c = '.' || c = '~' || c = '#' || c = '?' || c = '&' ||
    c = '/' || c = '='

/-- `[-…]{1,256}\.[a-zA-Z0-9()]{1,6}\b[-…]*` after the scheme: greedy host run
(backtracking to place the dot), greedy TLD run (backtracking for `\b`),
greedy path. -/
def urlCore (u : JStr) : Option JStr :=
  let run1 := u.takeWhile urlClass1
  let maxN := min run1.length 256
  (List.range maxN).findSome? (fun k =>
    let n := maxN - k
    match u.drop n with
    | c :: v =>
      if c = '.' then
        let run2 := v.takeWhile urlClass2
        let maxM := min run2.length 6
        (List.range maxM).findSome? (fun k2 =>
          let m := maxM - k2
          let prev := v.getD (m - 1) ' '
          let nextWord := match v.drop m with
            | [] => false
            | c2 :: _ => isWordCh c2
          if isWordCh prev ≠ nextWord then some ((v.drop m).dropWhile urlClass3) else none)
      else none
    | [] => none)

/-- `https?:\/\/(?:www\.)?` then `urlCore`; returns the consumed length. -/
def urlMatch (u : JStr) : Option Nat :=
  ((do
    let u1 ← litCS (str "http") u
    let afterScheme := fun (t : JStr) => do
      let t1 ← litCS (str "://") t
      (do
        let t2 ← litCS (str "www.") t1
        urlCore t2) <|> urlCore t1
    (do
      let u2 ← litCS (str "s") u1
      afterScheme u2) <|> afterScheme u1) :
    Option JStr).map (fun rest => u.length - rest.length)

/-- Global URL collection (`text.match(urlRegex)`): leftmost matches,
continuing after each match. -/
def collectUrlsGo : Nat → JStr → List JStr → List JStr
  | 0, _, acc => acc
  | fuel + 1, u, acc =>
    match u with
    | [] => acc
    | c :: tail =>
      match urlMatch u with
      | some len => collectUrlsGo fuel (u.drop len) (acc ++ [u.take len])
      | none => collectUrlsGo fuel tail acc

/-- `/apply|career|job|position|recruit/i.test(u)`. -/
def applyKeywordTest (u : JStr) : Bool :=
  containsCI u (str "apply") || containsCI u (str "career") || containsCI u (str "job") ||
    containsCI u (str "position") || containsCI u (str "recruit")

/-- `[local]+@[domain]+\.[a-zA-Z]{2,}`: greedy with backtracking on the dot
position; `endOk` is the end-boundary test of the calling regex (trivial when
the pattern has no trailing `\b`).  Returns (captured email, leftover). -/
def emailCore (endOk : JStr → Bool) (u : JStr) : Option (JStr × JStr) :=
  let r1 := u.takeWhile emailLocalCh
  if r1.isEmpty then none
  else
    match u.drop r1.length with
    | c :: w =>
      if c = '@' then
        let run2 := w.takeWhile emailDomainCh
        (List.range run2.length).findSome? (fun k =>
          let n := run2.length - k
          if w.getD n ' ' = '.' then
            let tail := w.drop (n + 1)
            let alphaRun := tail.takeWhile isLetterCh
            if 2 ≤ alphaRun.length ∧ endOk (tail.drop alphaRun.length) then
              some (r1 ++ '@' :: (w.take n ++ '.' :: alphaRun), tail.drop alphaRun.length)
            else none
          else none)
      else none
    | [] => none

/-- One attempt of the apply-email regex
`(?:apply|send|email|contact)\s*(?:to|at)?\s*:?\s*(email)` (flags `gi`),
returning capture group 1. -/
def emailAfterKeyword (u : JStr) : Option JStr := do
  let s1 ← litCI (str "apply") u <|> litCI (str "send") u <|> litCI (str "email") u <|>
    litCI (str "contact") u
  let s2 := wsStar s1
  let cont := fun (t : JStr) =>
    let t2 := wsStar t
    let t3 := match t2 with
      | c :: r => if c = ':' then r else t2
      | [] => t2
    (emailCore (fun _ => true) (wsStar t3)).map (fun p => p.1)
  (do
    let t ← litCI (str "to") s2
    cont t) <|>
  (do
    let t ← litCI (str "at") s2
    cont t) <|> cont s2

/-- `emailRegex.exec(text)?.[1]`: leftmost apply-phrased email capture. -/
def findApplyEmail (s : JStr) : Option JStr :=
  (List.range (s.length + 1)).findSome? (fun i => emailAfterKeyword (s.drop i))

/-- First match of `/\b[local]+@[domain]+\.[a-zA-Z]{2,}\b/`. -/
def findStandaloneEmail (s : JStr) : Option JStr :=
  (List.range (s.length + 1)).findSome? (fun i =>
    match s.drop i with
    | c :: _ =>
      let prevWord := if i = 0 then false else isWordCh (s.getD (i - 1) ' ')
      if prevWord ≠ isWordCh c then
        (emailCore
          (fun rest => match rest with
            | [] => true
            | c2 :: _ => !(isWordCh c2))
          (s.drop i)).map (fun p => p.1)
      else none
    | [] => none)

/-- `[- ]?` then a literal, greedy. -/
def dashSpaceThen (lit2 : String) (s : JStr) : Option JStr :=
  match s with
  | c :: r =>
    if c = '-' ∨ c = ' ' then litCI (str lit2) r <|> litCI (str lit2) s
    else litCI (str lit2) s
  | [] => litCI (str lit2) s

/-- The `JOB_TYPES` alternation (hyphen/space tolerant). -/
def typeAlt (s : JStr) : Option JStr :=
  (do
    let s1 ← litCI (str "full") s
    dashSpaceThen "time" s1) <|>
  (do
    let s1 ← litCI (str "part") s
    dashSpaceThen "time" s1) <|>
  litCI (str "contract") s <|> litCI (str "freelance") s <|>
  litCI (str "internship") s <|> litCI (str "remote") s <|> litCI (str "hybrid") s

/-- `\b(types)\b` at position `i` of `s`, returning the matched substring. -/
def typeMatchAt (s : JStr) (i : Nat) : Option JStr :=
  let prevOk := decide (i = 0) || !(isWordCh (s.getD (i - 1) ' '))
  if prevOk then
    match typeAlt (s.drop i) with
    | some rest =>
      let afterOk := match rest with
        | [] => true
        | c :: _ => !(isWordCh c)
      if afterOk then some ((s.drop i).take ((s.drop i).length - rest.length)) else none
    | none => none
  else none

/-- `text.match(typeRegex)?.[0]`: first job-type keyword occurrence. -/
def findJobType (s : JStr) : Option JStr :=
  (List.range (s.length + 1)).findSome? (typeMatchAt s)

/-- `\s*:?\s*([^\n]+)` after a label keyword. -/
def lineCaptureAfter (rest : JStr) : Option JStr :=
  let cap := (headTail rest).takeWhile (fun c => !(c = '\n'))
  if cap.isEmpty then none else some cap

/-- `(?:job\s+title|position|role|title)\s*:?\s*([^\n]+)` at a position. -/
def title1At (u : JStr) : Option JStr := do
  let r ← litPair "job" "title" u <|> litCI (str "position") u <|> litCI (str "role") u <|>
    litCI (str "title") u
  lineCaptureAfter r

/-- `(?:we(?:'re|\s+are)\s+hiring\s+(?:a|an)?)\s*([^\n.!?]+)` at a position. -/
def title2At (u : JStr) : Option JStr := do
  let r1 ← litCI (str "we") u
  let r2 ← litCI [apos, 'r', 'e'] r1 <|> (do
    let x ← wsPlus r1
    litCI (str "are") x)
  let r3 ← wsPlus r2
  let r4 ← litCI (str "hiring") r3
  let r5 ← wsPlus r4
  let cap := fun (t : JStr) =>
    let c := (wsStar t).takeWhile (fun ch => !(ch = '\n' ∨ ch = '.' ∨ ch = '!' ∨ ch = '?'))
    if c.isEmpty then none else some c
  (do
    let x ← litCI (str "a") r5
    cap x) <|>
  (do
    let x ← litCI (str "an") r5
    cap x) <|> cap r5

/-- `[a-zA-Z\s]` (note: `\s` includes newlines). -/
def titleClsCh (c : Char) : Bool := isLetterCh c || jsWs c

/-- The case-sensitive role-keyword alternation of the third title pattern. -/
def titleKeyword (t : JStr) : Option JStr :=
  litCS (str "Engineer") t <|> litCS (str "Developer") t <|> litCS (str "Manager") t <|>
    litCS (str "Designer") t <|> litCS (str "Analyst") t <|> litCS (str "Specialist") t <|>
    litCS (str "Lead") t <|> litCS (str "Director") t

/-- `^(?:#\s*)?([A-Z][a-zA-Z\s]+(?:…keywords…)[^\n]*)` at a line start
(case-sensitive), returning capture group 1. -/
def title3At (u : JStr) : Option JStr :=
  let body := fun (v : JStr) =>
    match v with
    | c0 :: v1 =>
      if 65 ≤ c0.toNat ∧ c0.toNat ≤ 90 then
        let run := v1.takeWhile titleClsCh
        (List.range run.length).findSome? (fun k =>
          let n := run.length - k
          match titleKeyword (v1.drop n) with
          | some rest =>
            let kwPart := (v1.drop n).take ((v1.drop n).length - rest.length)
            some (c0 :: (v1.take n ++ kwPart ++ rest.takeWhile (fun c => !(c = '\n'))))
          | none => none)
      else none
    | [] => none
  match u with
  | c :: r => if c = '#' then body (wsStar r) <|> body u else body u
  | [] => none

/-- Scan the multiline anchors (position 0 and after each LineTerminator)
for the first capture of a line-anchored pattern. -/
def scanPositionsM (pat : JStr → Option JStr) : JStr → Bool → Option JStr
  | [], atStart => if atStart then pat [] else none
  | c :: rest, atStart =>
    if atStart then
      match pat (c :: rest) with
      | some cap => some cap
      | none => scanPositionsM pat rest (isLineTerm c)
    else scanPositionsM pat rest (isLineTerm c)

/-- Scan every position for the first capture of an unanchored pattern. -/
def scanAll (pat : JStr → Option JStr) (s : JStr) : Option JStr :=
  (List.range (s.length + 1)).findSome? (fun i => pat (s.drop i))

/-- `(?:company|organization|employer|about)\s*:?\s*([^\n]+)`. -/
def company1At (u : JStr) : Option JStr := do
  let r ← litCI (str "company") u <|> litCI (str "organization") u <|>
    litCI (str "employer") u <|> litCI (str "about") u
  lineCaptureAfter r

/-- `[A-Za-z0-9\s&.,'-]` (company capture class). -/
def compCls (c : Char) : Bool :=
  isLetterCh c || isDigitCh c || jsWs c || c = '&' || c = '.' || c = ',' || c = apos ||
    c = '-'

/-- The terminator class `[|\-â€“]` of the second company pattern (the last
three characters are the UTF-8 mojibake of an en-dash in the source). -/
def companyDashCls (c : Char) : Bool :=
  c = '|' || c = '-' || c = Char.ofNat 0xE2 || c = Char.ofNat 0x20AC || c = Char.ofNat 0x201C

/-- The terminator `(?:\s*[|\-â€“]\s|$|\n)` of the second company pattern. -/
def company2Term (t : JStr) : Bool :=
  (match t.dropWhile jsWs with
    | c :: c2 :: _ => companyDashCls c && jsWs c2
    | _ => false) ||
  t.isEmpty ||
  (match t with
    | c :: _ => c = '\n'
    | [] => false)

/-- `(?:at|@)\s+([A-Za-z0-9\s&.,'-]+?)(?:\s*[|\-â€“]\s|$|\n)` (case-sensitive):
greedy `\s+` (backtracking), lazy capture. -/
def company2At (u : JStr) : Option JStr := do
  let r ← litCS (str "at") u <|> litCS (str "@") u
  let wsRun := r.takeWhile jsWs
  (List.range wsRun.length).findSome? (fun k =>
    let wlen := wsRun.length - k
    let v := r.drop wlen
    let capRun := v.takeWhile compCls
    (List.range capRun.length).findSome? (fun j =>
      let capLen := j + 1
      if company2Term (v.drop capLen) then some (v.take capLen) else none))

/-- `(?:join|work\s+with)\s+([A-Za-z0-9\s&.,'-]+)`. -/
def company3At (u : JStr) : Option JStr := do
  let r ← litCI (str "join") u <|> litPair "work" "with" u
  let r2 ← wsPlus r
  let cap := r2.takeWhile compCls
  if cap.isEmpty then none else some cap

/-- `(?:location|based\s+in|work\s+from|office)\s*:?\s*([^\n]+)`. -/
def location1At (u : JStr) : Option JStr := do
  let r ← litCI (str "location") u <|> litPair "based" "in" u <|> litPair "work" "from" u <|>
    litCI (str "office") u
  lineCaptureAfter r

/-- The keyword alternation of the second location pattern. -/
def location2Kw (u : JStr) : Option JStr :=
  litCI (str "remote") u <|> litCI (str "hybrid") u <|> litCI (str "onsite") u <|>
    litCI (str "in-office") u

/-- The optional group `(?:-?\s*([^\n]+))?` of the second location pattern. -/
def location2Group (t : JStr) : Option JStr :=
  (match t with
    | c :: r =>
      if c = '-' then
        let cap := (wsStar r).takeWhile (fun ch => !(ch = '\n'))
        if cap.isEmpty then none else some cap
      else none
    | [] => none) <|>
  (let cap := t.takeWhile (fun ch => !(ch = '\n'))
   if cap.isEmpty then none else some cap)

/-- `/(?:remote|hybrid|onsite|in-office)\s*(?:-?\s*([^\n]+))?/i`: the overall
regex matches at the first keyword occurrence; `m[1]` comes from that match
only (`none` both when there is no match and when the group is absent —
the caller treats the two cases identically). -/
def location2Find (s : JStr) : Option JStr :=
  match (List.range (s.length + 1)).findSome? (fun i => location2Kw (s.drop i)) with
  | some rest => location2Group (wsStar rest)
  | none => none

/-- The per-field pattern loop (utils.ts lines 550-562): first pattern whose
capture's trimmed length is in `(1, 200)` wins; otherwise the field stays
empty. -/
def tryFieldPatterns : List (JStr → Option JStr) → JStr → JStr
  | [], _ => []
  | p :: ps, s =>
    match p s with
    | some m1 =>
      let val := jsTrim m1
      if 1 < val.length ∧ val.length < 200 then val else tryFieldPatterns ps s
    | none => tryFieldPatterns ps s

/-- `firstLine.match(/^(.+?)\s+at\s+(.+)$/i)`: lazy first capture, greedy
whitespace with backtracking, greedy second capture to end of string. -/
def atSplit (line : JStr) : Option (JStr × JStr) :=
  (List.range line.length).findSome? (fun j =>
    let i := j + 1
    let u := line.drop i
    let wsRun := u.takeWhile jsWs
    (List.range wsRun.length).findSome? (fun k =>
      let wlen := wsRun.length - k
      match litCI (str "at") (u.drop wlen) with
      | some w =>
        let wsRun2 := w.takeWhile jsWs
        (List.range wsRun2.length).findSome? (fun k2 =>
          let wlen2 := wsRun2.length - k2
          let c2 := w.drop wlen2
          if c2.isEmpty then none else some (line.take i, c2))
      | none => none))

/-- `desc.replace(pat, '')` for a literal string pattern: remove the first
occurrence. -/
def replaceFirst (s pat : JStr) : JStr :=
  match jsIndexOf s pat with
  | .ofNat i => s.take i ++ s.drop (i + pat.length)
  | .negSucc _ => s

/-- One match of `/apply\s*(?:to|at|here)?\s*:?\s*/gi` at the head of `u`
(matched length). -/
def applyPhraseAt (u : JStr) : Option Nat :=
  (litCI (str "apply") u).map (fun r =>
    let r1 := wsStar r
    let r2 := match litCI (str "to") r1 <|> litCI (str "at") r1 <|> litCI (str "here") r1 with
      | some x => x
      | none => r1
    u.length - (headTail r2).length)

/-- Global removal of the apply phrases (leftmost, non-overlapping). -/
def removeApplyPhrasesGo : Nat → JStr → JStr
  | 0, u => u
  | fuel + 1, u =>
    match u with
    | [] => []
    | c :: tail =>
      match applyPhraseAt u with
      | some len => removeApplyPhrasesGo fuel (u.drop len)
      | none => c :: removeApplyPhrasesGo fuel tail

/-- `desc.replace(/apply\s*(?:to|at|here)?\s*:?\s*/gi, '')`. -/
def removeApplyPhrases (s : JStr) : JStr := removeApplyPhrasesGo s.length s

/-- Result record of the extractor (`ParsedJob`). -/
structure ParsedJob where
  title : JStr
  company : JStr
  location : JStr
  jobType : JStr
  description : JStr
  applyLink : JStr
  suggestedHashtags : List JStr
deriving DecidableEq, Repr

/-- Insertion-ordered `Set.add`. -/
def addTag (l : List JStr) (t : JStr) : List JStr :=
  if l.any (fun u => decide (u = t)) then l else l ++ [t]

/-- `suggestHashtags(parsed)` (utils.ts lines 598-627); the JS `Set`
preserves insertion order. -/
def suggestHashtags (parsed : ParsedJob) : List JStr :=
  let tags0 := [str "hiring", str "jobopening", str "jobs"]
  let tags1 :=
    if !parsed.title.isEmpty then
      let title := lowerStr parsed.title
      let a := if containsCI title (str "engineer") || containsCI title (str "developer") ||
          containsCI title (str "dev") then addTag tags0 (str "techjobs") else tags0
      let b := if containsCI title (str "software") || containsCI title (str "swe") ||
          containsCI title (str "sde") then addTag a (str "softwareengineering") else a
      let c := if containsCI title (str "designer") || containsCI title (str "design") then
          addTag b (str "design") else b
      let d := if containsCI title (str "manager") || containsCI title (str "lead") ||
          containsCI title (str "director") then addTag c (str "leadership") else c
      let e := if containsCI title (str "data") || containsCI title (str "analyst") ||
          containsCI title (str "scientist") then addTag d (str "data") else d
      let f := if containsCI title (str "product") then addTag e (str "productmanagement")
        else e
      if containsCI title (str "remote") then addTag f (str "remotework") else f
    else tags0
  let tags2 :=
    if !parsed.jobType.isEmpty then
      let a := if parsed.jobType = str "Remote" then
          addTag (addTag (addTag tags1 (str "remote")) (str "remotework"))
            (str "workfromhome")
        else tags1
      let b := if parsed.jobType = str "Hybrid" then addTag a (str "hybrid") else a
      let c := if parsed.jobType = str "Internship" then addTag b (str "internship") else b
      let d := if parsed.jobType = str "Contract" then addTag c (str "contract") else c
      if parsed.jobType = str "Freelance" then addTag d (str "freelance") else d
    else tags1
  if !parsed.company.isEmpty then addTag tags2 (str "careers") else tags2

/-! The extractor is transcribed below as one named definition per `const`
of the source body (utils.ts lines 468-593), each a pure function of the
trimmed text; `parsePastedJob` assembles them in source order. -/

/-- `text.match(urlRegex) || []`. -/
def extractedUrls (text : JStr) : List JStr := collectUrlsGo text.length text []

/-- `urls.find(u => …) || urls[0] || ''` (utils.ts lines 486-490). -/
def extractedApplyUrl (text : JStr) : JStr :=
  match (extractedUrls text).find? (fun u => applyKeywordTest u ||
      containsStr u (str "linkedin.com/jobs")) with
  | some u => u
  | none => (extractedUrls text).headD []

/-- `emailMatch?.[1] || ''` (utils.ts lines 493-496). -/
def extractedApplyEmail (text : JStr) : JStr := (findApplyEmail text).getD []

/-- `result.applyLink` (utils.ts line 501). -/
def extractedApplyLink (text : JStr) : JStr :=
  if !(extractedApplyUrl text).isEmpty then extractedApplyUrl text
  else if !(extractedApplyEmail text).isEmpty then str "mailto:" ++ extractedApplyEmail text
  else
    match findStandaloneEmail text with
    | some e => str "mailto:" ++ e
    | none => []

/-- `result.jobType` (utils.ts lines 504-520). -/
def extractedJobType (text : JStr) : JStr :=
  match findJobType text with
  | some m =>
    let normalized := lowerStr m
    if containsStr normalized (str "full") then str "Full-time"
    else if containsStr normalized (str "part") then str "Part-time"
    else if containsStr normalized (str "contract") then str "Contract"
    else if containsStr normalized (str "freelance") then str "Freelance"
    else if containsStr normalized (str "intern") then str "Internship"
    else if containsStr normalized (str "remote") then str "Remote"
    else if containsStr normalized (str "hybrid") then str "Hybrid"
    else []
  | none => []

/-- The labeled-pattern pass for the title (utils.ts lines 524-562). -/
def extractedTitle0 (text : JStr) : JStr :=
  tryFieldPatterns
    [scanAll title1At, scanAll title2At, fun s => scanPositionsM title3At s true] text

/-- The labeled-pattern pass for the company. -/
def extractedCompany0 (text : JStr) : JStr :=
  tryFieldPatterns [scanAll company1At, scanAll company2At, scanAll company3At] text

/-- The labeled-pattern pass for the location. -/
def extractedLocation0 (text : JStr) : JStr :=
  tryFieldPatterns [scanAll location1At, location2Find] text

/-- Title/company after the first-line fallback (utils.ts lines 565-574). -/
def extractedTitleCompany (text : JStr) : JStr × JStr :=
  let title0 := extractedTitle0 text
  let company0 := extractedCompany0 text
  if !title0.isEmpty then (title0, company0)
  else
    let firstLine := jsTrim ((text.splitOn '\n').headD [])
    match atSplit firstLine with
    | some p => (jsTrim p.1, if company0.isEmpty then jsTrim p.2 else company0)
    | none =>
      if !firstLine.isEmpty ∧ firstLine.length < 100 ∧
          !(jsStartsWith firstLine (str "http")) then (firstLine, company0)
      else ([], company0)

/-- `if (!result.location) result.location = 'Not specified'`
(utils.ts line 580). -/
def orNotSpecified (l : JStr) : JStr := if l.isEmpty then str "Not specified" else l

/-- Location after the remote/hybrid fallback and the default
(utils.ts lines 577-580). -/
def extractedLocation (text : JStr) : JStr :=
  orNotSpecified
    (if !(extractedLocation0 text).isEmpty then extractedLocation0 text
     else if containsCI text (str "remote") || containsCI text (str "hybrid") ||
         containsCI text (str "distributed") then
       if extractedJobType text = str "Remote" then str "Remote"
       else if extractedJobType text = str "Hybrid" then str "Hybrid"
       else str "Remote"
     else extractedLocation0 text)

/-- The description cleanup chain (utils.ts lines 583-588). -/
def cleanedDesc (text : JStr) : JStr :=
  let applyUrl := extractedApplyUrl text
  let applyEmail := extractedApplyEmail text
  let desc1 := if !applyUrl.isEmpty then replaceFirst text applyUrl else text
  let desc2 := if !applyEmail.isEmpty then replaceFirst desc1 applyEmail else desc1
  let desc3 :=
    match findStandaloneEmail text with
    | some e => if applyEmail.isEmpty then replaceFirst desc2 e else desc2
    | none => desc2
  jsTrim (collapseNl (removeApplyPhrases desc3))

/-- `parsePastedJob(raw)` (utils.ts lines 468-593).  `none` models the
divergence of `parseJobDescription` on a cleaned description that contains a
recognized section heading. -/
def parsePastedJob (fuel : Nat) (raw : JStr) : Option ParsedJob :=
  let text := jsTrim raw
  if text.isEmpty then some ⟨[], [], [], [], [], [], []⟩
  else
    match (if (cleanedDesc text).isEmpty then some []
           else parseJobDescription fuel (cleanedDesc text)) with
    | none => none
    | some descF =>
      let r0 : ParsedJob := ⟨(extractedTitleCompany text).1, (extractedTitleCompany text).2,
        extractedLocation text, extractedJobType text, descF, extractedApplyLink text, []⟩
      some { r0 with suggestedHashtags := suggestHashtags r0 }

/-- The job record of the end-to-end compose scenario. -/
def c7job : JobData :=
  { title := str "Backend Engineer"
    company := str "Acme"
    location := str "Lagos"
    jobType := str "Full-time"
    description := str "About the role: Build APIs.\n\nRequirements: Node, SQL."
    applyLink := str "https://acme.com/careers/42"
    hashtags := [str "hiring"]
    image := none }

/-! ### Concrete inputs for the thread-splitter claims -/

/-- 300 copies of `A`. -/
def c8text : JStr := List.replicate 300 'A'

/-- A 300-character input with a sentence break exactly at index 274. -/
def c1cexText : JStr := List.replicate 274 'A' ++ str ". " ++ List.replicate 24 'B'

/-- 300 copies of `C`. -/
def c9text : JStr := List.replicate 300 'C'

/-- C8: splitting 300 `A`s with limit 280 and chunk target 270 yields exactly
two chunks, ending in " (1/2)" and " (2/2)", the first of total length at
most 280. -/
theorem c8_thread_split_example :
    splitIntoThread false c8text =
      some [List.replicate 274 'A' ++ str " (1/2)",
            List.replicate 26 'A' ++ str " (2/2)"] ∧
    (List.replicate 274 'A' ++ str " (1/2)").length ≤ 280 := by
  constructor
  · decide
  · decide

/-- C1 counterexample: on a 300-character input whose only sentence break
`". "` starts exactly at index 274, the first chunk of
`splitIntoThread` has length 281, exceeding the 280-character limit:
the sentence-break branch sets `breakPoint = sentenceEnd + 1`, one past
`maxLength`. -/
theorem c1_counterexample :
    splitIntoThread false c1cexText =
      some [List.replicate 274 'A' ++ str ". (1/2)",
            List.replicate 24 'B' ++ str " (2/2)"] ∧
    280 < (List.replicate 274 'A' ++ str ". (1/2)").length := by
  constructor
  · decide
  · decide

/-- C9 counterexample: `splitIntoThread` reads the process-wide
`NEXT_PUBLIC_TWITTER_PREMIUM` environment variable through `getXCharLimit`,
so two calls with the identical text argument give different results when
that mutable environment differs. -/
theorem c9_counterexample :
    splitIntoThread true c9text ≠ splitIntoThread false c9text := by
  decide

/-- C9 (amended): each core function is deterministic over its explicit text
input together with the premium environment flag read at call time. -/
theorem c9_amended (premium : Bool) (t₁ t₂ : JStr) (h : t₁ = t₂) :
    splitIntoThread premium t₁ = splitIntoThread premium t₂ ∧
    getCharacterStatus premium t₁ = getCharacterStatus premium t₂ := by
  subst h; exact ⟨rfl, rfl⟩

/-- Witness for the amended C9 at a concrete input. -/
theorem c9_amended_witness :
    splitIntoThread false (str "hi") = splitIntoThread false (str "hi") ∧
    getCharacterStatus false (str "hi") = getCharacterStatus false (str "hi") :=
  c9_amended false (str "hi") (str "hi") rfl

/-! ### Digit lemmas -/

lemma numDigits_pos (n : Nat) : 1 ≤ numDigits n := by
  unfold numDigits natDigits natDigitsAux
  split <;> simp

lemma natDigits_ne_nil (n : Nat) : natDigits n ≠ [] := by
  have h := numDigits_pos n
  intro hc
  simp [numDigits, hc] at h

lemma natDigitsAux_length : ∀ f n, n < 10 ^ f → (natDigitsAux f n).length ≤ f := by
  intro f
  induction f with
  | zero => intro n _; simp [natDigitsAux]
  | succ f ih =>
    intro n h
    rw [natDigitsAux]
    split
    · simp
    · have hlt : n / 10 < 10 ^ f := by
        rw [Nat.div_lt_iff_lt_mul (by norm_num : (0 : Nat) < 10)]
        calc n < 10 ^ (f + 1) := h
        _ = 10 ^ f * 10 := by ring
      have := ih (n / 10) hlt
      simp only [List.length_append, List.length_cons, List.length_nil]
      omega

lemma natDigitsAux_irrel : ∀ f₁ f₂ n, 1 ≤ f₁ → 1 ≤ f₂ → n < 10 ^ f₁ → n < 10 ^ f₂ →
    natDigitsAux f₁ n = natDigitsAux f₂ n := by
  intro f₁
  induction f₁ with
  | zero => intro f₂ n h1; omega
  | succ a ih =>
    intro f₂ n _ h2 hn1 hn2
    match f₂ with
    | 0 => omega
    | b + 1 =>
      by_cases h10 : n < 10
      · rw [natDigitsAux, natDigitsAux, if_pos h10, if_pos h10]
      · have ha : 1 ≤ a := by
          rcases Nat.eq_zero_or_pos a with rfl | h
          · norm_num at hn1; omega
          · exact h
        have hb : 1 ≤ b := by
          rcases Nat.eq_zero_or_pos b with rfl | h
          · norm_num at hn2; omega
          · exact h
        have hda : n / 10 < 10 ^ a := by
          rw [Nat.div_lt_iff_lt_mul (by norm_num : (0 : Nat) < 10)]
          calc n < 10 ^ (a + 1) := hn1
          _ = 10 ^ a * 10 := by ring
        have hdb : n / 10 < 10 ^ b := by
          rw [Nat.div_lt_iff_lt_mul (by norm_num : (0 : Nat) < 10)]
          calc n < 10 ^ (b + 1) := hn2
          _ = 10 ^ b * 10 := by ring
        rw [natDigitsAux, natDigitsAux, if_neg h10, if_neg h10]
        congr 1
        exact ih b (n / 10) ha hb hda hdb

lemma numDigits_le (n d : Nat) (hd : 1 ≤ d) (h : n < 10 ^ d) : numDigits n ≤ d := by
  have h1 : n < 10 ^ (n + 1) := by
    calc n < 10 ^ n := Nat.lt_pow_self (by norm_num) n
    _ ≤ 10 ^ (n + 1) := Nat.pow_le_pow_right (by norm_num) (by omega)
  unfold numDigits natDigits
  rw [natDigitsAux_irrel (n + 1) d n (by omega) hd h1 h]
  exact natDigitsAux_length d n h

lemma isDigitCh_digitChar (d : Nat) (hd : d < 10) : isDigitCh (digitChar d) = true := by
  interval_cases d <;> decide

lemma natDigitsAux_digits : ∀ f n c, c ∈ natDigitsAux f n → isDigitCh c = true := by
  intro f
  induction f with
  | zero => intro n c h; simp [natDigitsAux] at h
  | succ f ih =>
    intro n c h
    rw [natDigitsAux] at h
    by_cases h10 : n < 10
    · rw [if_pos h10] at h
      simp at h
      subst h
      exact isDigitCh_digitChar n h10
    · rw [if_neg h10] at h
      simp at h
      rcases h with h | h
      · exact ih _ _ h
      · subst h
        exact isDigitCh_digitChar _ (Nat.mod_lt _ (by norm_num))

lemma natDigits_digits (n : Nat) : ∀ c ∈ natDigits n, isDigitCh c = true :=
  fun c h => natDigitsAux_digits _ _ _ h

lemma mkSuffix_length (k d : Nat) : (mkSuffix k d).length = 4 + numDigits k + numDigits d := by
  simp only [mkSuffix, numDigits, List.length_append, List.length_cons, List.length_nil]
  omega

/-! ### List and trim lemmas -/

lemma lenDropWhileLe {α : Type} (p : α → Bool) (l : List α) :
    (l.dropWhile p).length ≤ l.length := by
  induction l with
  | nil => simp
  | cons a l ih =>
    rw [List.dropWhile_cons]
    split
    · simp only [List.length_cons]; omega
    · simp

lemma dropWhileIdem {α : Type} (p : α → Bool) (l : List α) :
    (l.dropWhile p).dropWhile p = l.dropWhile p := by
  induction l with
  | nil => simp
  | cons a l ih =>
    rw [List.dropWhile_cons]
    split
    · exact ih
    · rw [List.dropWhile_cons]
      simp [*]

lemma takeWhileAppendAll {α : Type} (p : α → Bool) (xs ys : List α) (y : α)
    (hxs : ∀ x ∈ xs, p x = true) (hy : p y = false) :
    ((xs ++ y :: ys).takeWhile p) = xs := by
  induction xs with
  | nil => simp [List.takeWhile_cons, hy]
  | cons a xs ih =>
    have ha := hxs a (by simp)
    simp only [List.cons_append, List.takeWhile_cons, ha, if_true]
    rw [ih (fun x hx => hxs x (by simp [hx]))]

lemma jsTrim_trimmedEnd (s : JStr) :
    (jsTrim s).reverse.dropWhile jsWs = (jsTrim s).reverse := by
  simp [jsTrim, dropWhileIdem]

lemma jsTrim_length_le (s : JStr) : (jsTrim s).length ≤ s.length := by
  unfold jsTrim
  have h1 := lenDropWhileLe jsWs ((s.dropWhile jsWs).reverse)
  have h2 := lenDropWhileLe jsWs s
  simp only [List.length_reverse] at *
  omega

/-! ### Suffix-rewrite lemma -/

lemma replaceThreadSuffix_body (body : JStr) (k d n : Nat)
    (hb : body.reverse.dropWhile jsWs = body.reverse) :
    replaceThreadSuffix (body ++ mkSuffix k d) k n = body ++ mkSuffix k n := by
  have hrev : (body ++ mkSuffix k d).reverse =
      ')' :: ((natDigits d).reverse ++
        '/' :: ((natDigits k).reverse ++ '(' :: ' ' :: body.reverse)) := by
    simp [mkSuffix]
  have hds : ((natDigits d).reverse ++
      '/' :: ((natDigits k).reverse ++ '(' :: ' ' :: body.reverse)).takeWhile isDigitCh =
      (natDigits d).reverse := by
    refine takeWhileAppendAll isDigitCh _ _ _ ?_ (by decide)
    intro x hx
    exact natDigits_digits d x (List.mem_reverse.mp hx)
  have hne : ((natDigits d).reverse).isEmpty = false := by
    have := natDigits_ne_nil d
    simp [List.isEmpty_iff]
    simpa using this
  have hdrop : ((natDigits d).reverse ++
      '/' :: ((natDigits k).reverse ++ '(' :: ' ' :: body.reverse)).drop
        ((natDigits d).reverse).length =
      '/' :: ((natDigits k).reverse ++ '(' :: ' ' :: body.reverse) :=
    List.drop_left _ _
  have htake : ((natDigits k).reverse ++ '(' :: ' ' :: body.reverse).take
      ((natDigits k).reverse).length = (natDigits k).reverse :=
    List.take_left _ _
  have hdrop2 : ((natDigits k).reverse ++ '(' :: ' ' :: body.reverse).drop
      ((natDigits k).reverse).length = '(' :: ' ' :: body.reverse :=
    List.drop_left _ _
  rw [replaceThreadSuffix, hrev]
  simp only [hds, hne, hdrop, htake, hdrop2, if_pos rfl, if_true, Bool.false_eq_true,
    if_false, List.dropWhile_cons]
  rw [hb, if_pos (show jsWs ' ' = true from by decide), List.reverse_reverse]

/-! ### lastIndexOf bound -/

lemma lastIndexOfAux_le (s pat : JStr) : ∀ b k, lastIndexOfAux s pat b = some k → k ≤ b := by
  intro b
  induction b with
  | zero =>
    intro k h
    rw [lastIndexOfAux] at h
    split at h
    · injection h with h; omega
    · exact absurd h (by simp)
  | succ b ih =>
    intro k h
    rw [lastIndexOfAux] at h
    split at h
    · injection h with h; omega
    · exact le_trans (ih k h) (by omega)

lemma jsLastIndexOf_le (s pat : JStr) (pos : Int) :
    jsLastIndexOf s pat pos ≤ ((min pos.toNat s.length : Nat) : Int) := by
  unfold jsLastIndexOf
  split
  · next k hk =>
      exact_mod_cast lastIndexOfAux_le s pat _ k hk
  · have : (0 : Int) ≤ ((min pos.toNat s.length : Nat) : Int) := by positivity
    omega

/-! ### ChunksOk lemmas -/

lemma chunksOk_append (est : Nat) : ∀ (s : Nat) (l : List JStr) (c : JStr),
    ChunksOk est s l → ChunkOk est (s + l.length) c → ChunksOk est s (l ++ [c]) := by
  intro s l
  induction l generalizing s with
  | nil =>
    intro c _ hc
    refine ⟨by simpa using hc, trivial⟩
  | cons a l ih =>
    intro c h hc
    rcases h with ⟨ha, hl⟩
    refine ⟨ha, ih (s + 1) c hl ?_⟩
    have : s + (a :: l).length = (s + 1) + l.length := by simp; omega
    rwa [this] at hc

lemma chunksOk_get (est : Nat) : ∀ (s : Nat) (l : List JStr), ChunksOk est s l →
    ∀ i (h : i < l.length), ChunkOk est (s + i) (l.get ⟨i, h⟩) := by
  intro s l
  induction l generalizing s with
  | nil => intro _ i h; simp at h
  | cons a l ih =>
    intro hl i h
    rcases hl with ⟨ha, hrest⟩
    cases i with
    | zero => simpa using ha
    | succ i =>
      have hi : i < l.length := by simpa using h
      have := ih (s + 1) hrest i hi
      have harith : s + 1 + i = s + (i + 1) := by omega
      rw [harith] at this
      simpa using this

/-! ### Main loop invariant of the thread splitter (standard configuration) -/

lemma splitGo_spec (est N : Nat) (hN : N ≤ 2 ^ 53) (hest : numDigits est ≤ 16) :
    ∀ (fuel : Nat) (chunks : List JStr) (remaining : JStr),
    chunks.length + remaining.length ≤ N →
    remaining.length ≤ fuel →
    (chunks = [] → 280 < remaining.length) →
    (chunks = [] ∨ remaining.reverse.dropWhile jsWs = remaining.reverse) →
    ChunksOk est 0 chunks →
    ∃ cs, splitGo 280 est fuel chunks remaining = some cs ∧ ChunksOk est 0 cs ∧
      chunks.length ≤ cs.length ∧ (remaining ≠ [] → chunks.length < cs.length) := by
  intro fuel
  induction fuel with
  | zero =>
    intro chunks remaining hcount hfuel hfirst htrim hok
    have hrem : remaining = [] := List.eq_nil_of_length_eq_zero (by omega)
    subst hrem
    refine ⟨chunks, ?_, hok, le_refl _, by simp⟩
    rw [splitGo]
    simp
  | succ f ih =>
    intro chunks remaining hcount hfuel hfirst htrim hok
    by_cases hrem0 : remaining.length = 0
    · have hrem : remaining = [] := List.eq_nil_of_length_eq_zero hrem0
      subst hrem
      refine ⟨chunks, ?_, hok, le_refl _, by simp⟩
      rw [splitGo]
      simp
    · have hp53 : (2 : Nat) ^ 53 = 9007199254740992 := by norm_num
      have hp16 : (10 : Nat) ^ 16 = 10000000000000000 := by norm_num
      have hk : chunks.length + 1 < 10 ^ 16 := by omega
      have hk16 : numDigits (chunks.length + 1) ≤ 16 := numDigits_le _ 16 (by norm_num) hk
      have hsuf : (mkSuffix (chunks.length + 1) est).length ≤ 36 := by
        rw [mkSuffix_length]; omega
      have hsufpos : 6 ≤ (mkSuffix (chunks.length + 1) est).length := by
        rw [mkSuffix_length]
        have := numDigits_pos (chunks.length + 1)
        have := numDigits_pos est
        omega
      have cont : ∀ bp : Int, 1 ≤ bp →
          bp ≤ (280 : Int) - ((mkSuffix (chunks.length + 1) est).length : Int) + 1 →
          ∃ cs, splitGo 280 est f
              (chunks ++ [jsTrim (jsSliceTo remaining bp) ++ mkSuffix (chunks.length + 1) est])
              (jsTrim (jsSliceFrom remaining bp)) = some cs ∧
            ChunksOk est 0 cs ∧ chunks.length + 1 ≤ cs.length := by
        intro bp hbp1 hbp2
        have hidx : jsSliceIdx remaining.length bp = min bp.toNat remaining.length := by
          unfold jsSliceIdx
          rw [if_neg (by omega)]
        have hidx1 : 1 ≤ jsSliceIdx remaining.length bp := by
          rw [hidx]
          omega
        have hchunklen : (jsTrim (jsSliceTo remaining bp)).length +
            (mkSuffix (chunks.length + 1) est).length ≤ 281 := by
          have h1 := jsTrim_length_le (jsSliceTo remaining bp)
          have h2 : (jsSliceTo remaining bp).length ≤ bp.toNat := by
            unfold jsSliceTo
            rw [List.length_take, hidx]
            omega
          omega
        have hremlen : (jsTrim (jsSliceFrom remaining bp)).length ≤ remaining.length - 1 := by
          have h1 := jsTrim_length_le (jsSliceFrom remaining bp)
          have h2 : (jsSliceFrom remaining bp).length =
              remaining.length - jsSliceIdx remaining.length bp := by
            unfold jsSliceFrom
            rw [List.length_drop]
          omega
        obtain ⟨cs, hcs, hcsok, hle, _⟩ :=
          ih (chunks ++ [jsTrim (jsSliceTo remaining bp) ++ mkSuffix (chunks.length + 1) est])
            (jsTrim (jsSliceFrom remaining bp))
            (by simp only [List.length_append, List.length_cons, List.length_nil]; omega)
            (by omega)
            (fun hc => absurd hc (by simp))
            (Or.inr (jsTrim_trimmedEnd _))
            (chunksOk_append est 0 chunks _ hok
              (by simpa using
                ⟨jsTrim (jsSliceTo remaining bp), rfl, hchunklen, jsTrim_trimmedEnd _⟩))
        exact ⟨cs, hcs, hcsok, by simpa using hle⟩
      rw [splitGo, if_neg hrem0]
      simp only [Nat.cast_ofNat]
      split_ifs with hfit hdead
      · exfalso
        have h0 : chunks = [] := List.length_eq_zero.mp hdead.2
        have := hfirst h0
        omega
      · have htr : remaining.reverse.dropWhile jsWs = remaining.reverse := by
          rcases htrim with h0 | h
          · exfalso; have := hfirst h0; omega
          · exact h
        refine ⟨chunks ++ [remaining ++ mkSuffix (chunks.length + 1) est], rfl, ?_, by simp,
          fun _ => by simp⟩
        refine chunksOk_append est 0 chunks _ hok ?_
        have hlen : remaining.length + (mkSuffix (chunks.length + 1) est).length ≤ 281 := by
          omega
        simpa using ⟨remaining, rfl, hlen, htr⟩
      · -- sentence-break branch
        set sE := jsLastIndexOf remaining (str ". ")
          ((280 : Int) - ((mkSuffix (chunks.length + 1) est).length : Int)) with hsE
        rename_i hc3
        have hsEle := jsLastIndexOf_le remaining (str ". ")
          ((280 : Int) - ((mkSuffix (chunks.length + 1) est).length : Int))
        rw [← hsE] at hsEle
        have hcast : (((280 : Int) -
            ((mkSuffix (chunks.length + 1) est).length : Int)).toNat : Int) =
            (280 : Int) - ((mkSuffix (chunks.length + 1) est).length : Int) := by
          omega
        obtain ⟨cs, hcs, hcsok, hle⟩ := cont (sE + 1) (by omega) (by omega)
        exact ⟨cs, hcs, hcsok, by omega, fun _ => by omega⟩
      · -- word-break branch
        set wB := jsLastIndexOf remaining (str " ")
          ((280 : Int) - ((mkSuffix (chunks.length + 1) est).length : Int)) with hwB
        rename_i hc3 hc4
        have hwBle := jsLastIndexOf_le remaining (str " ")
          ((280 : Int) - ((mkSuffix (chunks.length + 1) est).length : Int))
        rw [← hwB] at hwBle
        have hcast : (((280 : Int) -
            ((mkSuffix (chunks.length + 1) est).length : Int)).toNat : Int) =
            (280 : Int) - ((mkSuffix (chunks.length + 1) est).length : Int) := by
          omega
        obtain ⟨cs, hcs, hcsok, hle⟩ := cont wB (by omega) (by omega)
        exact ⟨cs, hcs, hcsok, by omega, fun _ => by omega⟩
      · -- hard-cut branch
        obtain ⟨cs, hcs, hcsok, hle⟩ := cont
          ((280 : Int) - ((mkSuffix (chunks.length + 1) est).length : Int))
          (by omega) (by omega)
        exact ⟨cs, hcs, hcsok, by omega, fun _ => by omega⟩

lemma renumberChunks_length (cs : List JStr) : (renumberChunks cs).length = cs.length := by
  simp [renumberChunks]

lemma renumberChunks_get (cs : List JStr) (i : Nat) (h : i < cs.length)
    (h' : i < (renumberChunks cs).length) :
    (renumberChunks cs).get ⟨i, h'⟩ =
      replaceThreadSuffix (cs.get ⟨i, h⟩) (i + 1) cs.length :=
  List.get_mapIdx cs _ i h h'

/-- C1 (amended): under the standard configuration, `splitIntoThread`
terminates on every JavaScript-sized input and (i) returns `[text]` unchanged
when the text fits in 280 characters, and (ii) otherwise every chunk carries
the suffix `" (i+1/n)"` with `n` the final sequence length, and its total
length is at most `281 + digits(n) - digits(estimate)` — not 280: the
sentence-break branch may overshoot the per-chunk budget by one character,
and renumbering may lengthen the denominator. -/
theorem c1_amended (text : JStr) (hN : text.length ≤ 2 ^ 53) :
    ∃ cs, splitIntoThread false text = some cs ∧
      (text.length ≤ 280 → cs = [text]) ∧
      (280 < text.length →
        ∀ i, i < cs.length →
          (cs.getD i []).length + numDigits (ceilNatDiv text.length 270) ≤
            281 + numDigits cs.length ∧
          mkSuffix (i + 1) cs.length <:+ cs.getD i []) := by
  by_cases hle : text.length ≤ 280
  · refine ⟨[text], ?_, fun _ => rfl, fun h => absurd h (by omega)⟩
    unfold splitIntoThread getXCharLimit
    simp [hle]
  · push_neg at hle
    have hp53 : (2 : Nat) ^ 53 = 9007199254740992 := by norm_num
    have hp16 : (10 : Nat) ^ 16 = 10000000000000000 := by norm_num
    have hest16 : numDigits (ceilNatDiv text.length 270) ≤ 16 := by
      apply numDigits_le _ 16 (by norm_num)
      have h1 : ceilNatDiv text.length 270 ≤ text.length + 269 := by
        unfold ceilNatDiv
        exact le_trans (Nat.div_le_self _ _) (by omega)
      omega
    obtain ⟨cs0, hgo, hok, _, _⟩ :=
      splitGo_spec (ceilNatDiv text.length 270) text.length hN hest16 text.length [] text
        (by simp) (le_refl _) (fun _ => hle) (Or.inl rfl) trivial
    refine ⟨renumberChunks cs0, ?_, fun h => absurd h (by omega), ?_⟩
    · unfold splitIntoThread getXCharLimit getXThreadLimit
      simp only [Bool.false_eq_true, if_false]
      rw [if_neg (by omega), hgo]
      rfl
    · intro _ i hilt
      have hlen := renumberChunks_length cs0
      have hi : i < cs0.length := by omega
      have hi' : i < (renumberChunks cs0).length := by omega
      have hco := chunksOk_get (ceilNatDiv text.length 270) 0 cs0 hok i hi
      rw [Nat.zero_add] at hco
      obtain ⟨body, hbody, hblen, hbtr⟩ := hco
      have hget : (renumberChunks cs0).getD i [] =
          replaceThreadSuffix (cs0.get ⟨i, hi⟩) (i + 1) cs0.length := by
        rw [List.getD_eq_get _ _ hi']
        exact renumberChunks_get cs0 i hi hi'
      rw [hlen, hget, hbody,
        replaceThreadSuffix_body body (i + 1) (ceilNatDiv text.length 270) cs0.length hbtr]
      constructor
      · rw [List.length_append, mkSuffix_length]
        rw [mkSuffix_length] at hblen
        omega
      · exact ⟨body, rfl⟩

/-- Witness for the amended C1 at a concrete 301-character input. -/
theorem c1_amended_witness :
    ∃ cs, splitIntoThread false (List.replicate 301 'D') = some cs ∧
      ((List.replicate 301 'D').length ≤ 280 → cs = [List.replicate 301 'D']) ∧
      (280 < (List.replicate 301 'D').length →
        ∀ i, i < cs.length →
          (cs.getD i []).length + numDigits (ceilNatDiv (List.replicate 301 'D').length 270) ≤
            281 + numDigits cs.length ∧
          mkSuffix (i + 1) cs.length <:+ cs.getD i []) :=
  c1_amended (List.replicate 301 'D') (by simp)

/-- C10: the chunking loop of `splitIntoThread` terminates on every input
string of JavaScript-representable length (at most `2^53` code units) under
the standard configuration: each iteration picks a break point of at least 1
(`maxLength` stays positive), so the remaining text strictly shrinks. -/
theorem c10_termination (text : JStr) (hN : text.length ≤ 2 ^ 53) :
    ∃ cs, splitIntoThread false text = some cs ∧ 1 ≤ cs.length := by
  by_cases hle : text.length ≤ 280
  · refine ⟨[text], ?_, by simp⟩
    unfold splitIntoThread getXCharLimit
    simp [hle]
  · push_neg at hle
    have hp53 : (2 : Nat) ^ 53 = 9007199254740992 := by norm_num
    have hp16 : (10 : Nat) ^ 16 = 10000000000000000 := by norm_num
    have hest16 : numDigits (ceilNatDiv text.length 270) ≤ 16 := by
      apply numDigits_le _ 16 (by norm_num)
      have h1 : ceilNatDiv text.length 270 ≤ text.length + 269 := by
        unfold ceilNatDiv
        exact le_trans (Nat.div_le_self _ _) (by omega)
      omega
    obtain ⟨cs0, hgo, _, _, hone⟩ :=
      splitGo_spec (ceilNatDiv text.length 270) text.length hN hest16 text.length [] text
        (by simp) (le_refl _) (fun _ => hle) (Or.inl rfl) trivial
    have hne : text ≠ [] := by
      intro hc
      rw [hc] at hle
      simp at hle
    refine ⟨renumberChunks cs0, ?_, ?_⟩
    · unfold splitIntoThread getXCharLimit getXThreadLimit
      simp only [Bool.false_eq_true, if_false]
      rw [if_neg (by omega), hgo]
      rfl
    · rw [renumberChunks_length]
      exact lt_of_lt_of_le (hone hne) (le_refl _)

/-- Witness for C10 at a concrete input. -/
theorem c10_termination_witness :
    ∃ cs, splitIntoThread false (List.replicate 290 'E') = some cs ∧ 1 ≤ cs.length :=
  c10_termination (List.replicate 290 'E') (by simp)

/-! ### The exec loop of the section parser -/

lemma execLoop_of_none (k : SectionKey) (t : JStr)
    (h : sectionFirstMatch (sectionAltOf k) t = none) (fuel : Nat) (acc : List SMatch) :
    execLoop k t fuel acc = some acc := by
  rw [execLoop, h]

lemma execLoop_of_some (k : SectionKey) (t : JStr) (m : Nat × Nat)
    (h : sectionFirstMatch (sectionAltOf k) t = some m) :
    ∀ (fuel : Nat) (acc : List SMatch), execLoop k t fuel acc = none := by
  intro fuel
  induction fuel with
  | zero => intro acc; rw [execLoop, h]
  | succ f ih => intro acc; rw [execLoop, h]; exact ih _

/-- C3: the claim presumes `parseJobDescription` returns on structured text,
but for any text containing a recognized heading the heading-scan loop calls
`exec` on a regex without the `g` flag and never advances: the function
diverges (no amount of loop unrolling returns).  Shown here at the failing
input `"Requirements: Node"`. -/
theorem c3_code_bug (fuel : Nat) :
    parseJobDescription fuel (str "Requirements: Node") = none := by
  have h1 : sectionFirstMatch (sectionAltOf .about)
      (jsTrim (str "Requirements: Node")) = none := by decide
  have h2 : sectionFirstMatch (sectionAltOf .responsibilities)
      (jsTrim (str "Requirements: Node")) = none := by decide
  have h3 : sectionFirstMatch (sectionAltOf .requirements)
      (jsTrim (str "Requirements: Node")) = some (0, 14) := by decide
  unfold parseJobDescription collectMatches
  rw [if_neg (by decide)]
  simp only [execLoop_of_none _ _ h1, execLoop_of_none _ _ h2, execLoop_of_some _ _ _ h3]
  rfl

/-- C4 counterexample: on input `" hello "` (no recognized heading) the
function returns the original string `" hello "`, not its trim `"hello"`:
the no-heading path returns `raw`, not `trim(raw)`. -/
theorem c4_counterexample :
    parseJobDescription 0 (str " hello ") = some (str " hello ") ∧
      str " hello " ≠ jsTrim (str " hello ") := by
  constructor
  · decide
  · decide

/-- C4 (amended): for every input in which no recognized heading phrase
matches (at any multiline anchor of the trimmed text), `parseJobDescription`
returns the input string unchanged — the original `raw`, not `trim(raw)`. -/
theorem c4_amended (fuel : Nat) (raw : JStr)
    (h1 : sectionFirstMatch (sectionAltOf .about) (jsTrim raw) = none)
    (h2 : sectionFirstMatch (sectionAltOf .responsibilities) (jsTrim raw) = none)
    (h3 : sectionFirstMatch (sectionAltOf .requirements) (jsTrim raw) = none)
    (h4 : sectionFirstMatch (sectionAltOf .benefits) (jsTrim raw) = none) :
    parseJobDescription fuel raw = some raw := by
  unfold parseJobDescription collectMatches
  by_cases he : (jsTrim raw).isEmpty = true
  · rw [if_pos he]
  · rw [if_neg he]
    simp only [execLoop_of_none _ _ h1, execLoop_of_none _ _ h2, execLoop_of_none _ _ h3,
      execLoop_of_none _ _ h4]
    rfl

/-- Witness for the amended C4 at a concrete input. -/
theorem c4_amended_witness :
    parseJobDescription 0 (str "hello world") = some (str "hello world") :=
  c4_amended 0 (str "hello world") (by decide) (by decide) (by decide) (by decide)

/-- C7: the end-to-end compose claim presumes `composeTwitterMessage`
returns a string, but the given description contains the heading
`"About the role:"`, whose pattern matches, so the section scan inside
`formatTwitterMessage` diverges: the function never returns. -/
theorem c7_code_bug (fuel : Nat) : formatTwitterMessage fuel c7job = none := by
  have hab : sectionFirstMatch (sectionAltOf .about) (jsTrim c7job.description) =
      some (0, 16) := by decide
  have hpd : parseJobDescription fuel c7job.description = none := by
    unfold parseJobDescription collectMatches
    rw [if_neg (by decide)]
    simp only [execLoop_of_some _ _ _ hab]
    rfl
  unfold formatTwitterMessage
  rw [hpd]

/-! ### Trim idempotence (for the apply-section claim) -/

lemma jsTrim_eq_rdrop (s : JStr) : jsTrim s = List.rdropWhile jsWs (s.dropWhile jsWs) := rfl

lemma jsTrim_idem (s : JStr) : jsTrim (jsTrim s) = jsTrim s := by
  rw [jsTrim_eq_rdrop, jsTrim_eq_rdrop]
  have hdt : (s.dropWhile jsWs).dropWhile jsWs = s.dropWhile jsWs := dropWhileIdem jsWs s
  have h1 : (List.rdropWhile jsWs (s.dropWhile jsWs)).dropWhile jsWs =
      List.rdropWhile jsWs (s.dropWhile jsWs) := by
    rcases hrt : List.rdropWhile jsWs (s.dropWhile jsWs) with _ | ⟨a, rest⟩
    · simp
    · have hpre : List.IsPrefix (a :: rest) (s.dropWhile jsWs) := by
        rw [← hrt]; exact List.rdropWhile_prefix jsWs (s.dropWhile jsWs)
      obtain ⟨tail, htail⟩ := hpre
      have ht2 : s.dropWhile jsWs = a :: (rest ++ tail) := by rw [← htail]; simp
      have hji : jsWs a = false := by
        by_contra hc
        rw [Bool.not_eq_false] at hc
        have hd := hdt
        rw [ht2, List.dropWhile_cons, if_pos hc] at hd
        have hlen1 : (List.dropWhile jsWs (rest ++ tail)).length = (rest ++ tail).length + 1 := by
          rw [hd]; simp
        have hle := lenDropWhileLe jsWs (rest ++ tail)
        omega
      rw [List.dropWhile_cons, if_neg (by simp [hji])]
  rw [h1, List.rdropWhile_idempotent]

lemma isEmailApplyLink_trim (a : JStr) : isEmailApplyLink (jsTrim a) = isEmailApplyLink a := by
  unfold isEmailApplyLink
  rw [jsTrim_idem]

lemma getDisplayEmail_trim (a : JStr) : getDisplayEmail (jsTrim a) = getDisplayEmail a := by
  unfold getDisplayEmail
  rw [jsTrim_idem]

/-- C6: for every apply target that is an email address or a `mailto:` URL
carrying an email, `formatApplySection` returns the plain-text CV
instruction with the displayed email and no markup, in both the rich-text
and plain-text modes. -/
theorem c6_email_apply (applyLink company : JStr) (forTelegram : Bool)
    (sourceUrl : Option JStr)
    (h1 : isEmailApplyLink applyLink = true) (h2 : getDisplayEmail applyLink ≠ []) :
    formatApplySection applyLink company forTelegram sourceUrl =
      str "Interested and qualified candidates should send their CVs to: " ++
        getDisplayEmail applyLink := by
  have hne : (jsTrim applyLink).isEmpty = false := by
    by_cases he : (jsTrim applyLink).isEmpty = true
    · exfalso
      unfold isEmailApplyLink at h1
      rw [if_pos he] at h1
      exact Bool.false_ne_true h1
    · simpa using he
  have h2e : (getDisplayEmail applyLink).isEmpty = false := by
    rcases hd : getDisplayEmail applyLink with _ | _
    · exact absurd hd h2
    · rfl
  unfold formatApplySection
  simp only [hne, Bool.false_eq_true, if_false, isEmailApplyLink_trim, getDisplayEmail_trim,
    h1, h2e, Bool.not_false, Bool.and_true, if_true]

/-- Witness for C6 at `"jobs@acme.com"` in both modes. -/
theorem c6_email_apply_witness :
    formatApplySection (str "jobs@acme.com") [] true none =
      str "Interested and qualified candidates should send their CVs to: jobs@acme.com" ∧
    formatApplySection (str "jobs@acme.com") [] false none =
      str "Interested and qualified candidates should send their CVs to: jobs@acme.com" := by
  constructor
  · rw [c6_email_apply (str "jobs@acme.com") [] true none (by decide) (by decide)]
    decide
  · rw [c6_email_apply (str "jobs@acme.com") [] false none (by decide) (by decide)]
    decide

/-! ### Hashtag dedup invariants -/

lemma addTagsTrending_inv : ∀ (ts seen result : List JStr), result.Nodup →
    (∀ x ∈ result, x ∈ seen) →
    (addTagsTrending ts seen result).2.Nodup ∧
      ∀ x ∈ (addTagsTrending ts seen result).2, x ∈ (addTagsTrending ts seen result).1 := by
  intro ts
  induction ts with
  | nil =>
    intro seen result h1 h2
    rw [addTagsTrending]
    exact ⟨h1, h2⟩
  | cons t ts ih =>
    intro seen result h1 h2
    rw [addTagsTrending]
    split
    · next hc =>
        have hns : normTag t ∉ seen := by
          simp only [Bool.and_eq_true, Bool.not_eq_true', List.any_eq_false] at hc
          intro hmem
          have := hc.2 _ hmem
          simp at this
        have hnr : normTag t ∉ result := fun hmem => hns (h2 _ hmem)
        refine ih (seen ++ [normTag t]) (result ++ [normTag t]) ?_ ?_
        · simp [List.nodup_append, h1, hnr]
        · intro x hx
          rcases List.mem_append.mp hx with hx | hx
          · exact List.mem_append.mpr (Or.inl (h2 _ hx))
          · exact List.mem_append.mpr (Or.inr hx)
    · exact ih seen result h1 h2

lemma addTagsJob_inv : ∀ (ts seen result : List JStr), result.Nodup →
    (∀ x ∈ result, x ∈ seen) →
    (addTagsJob ts seen result).2.Nodup ∧
      ∀ x ∈ (addTagsJob ts seen result).2, x ∈ (addTagsJob ts seen result).1 := by
  intro ts
  induction ts with
  | nil =>
    intro seen result h1 h2
    rw [addTagsJob]
    exact ⟨h1, h2⟩
  | cons t ts ih =>
    intro seen result h1 h2
    rw [addTagsJob]
    split
    · next hc =>
        have hns : normTag t ∉ seen := by
          simp only [Bool.and_eq_true, Bool.not_eq_true', List.any_eq_false] at hc
          intro hmem
          have := hc.1.2 _ hmem
          simp at this
        have hnr : normTag t ∉ result := fun hmem => hns (h2 _ hmem)
        refine ih (seen ++ [normTag t]) (result ++ [normTag t]) ?_ ?_
        · simp [List.nodup_append, h1, hnr]
        · intro x hx
          rcases List.mem_append.mp hx with hx | hx
          · exact List.mem_append.mpr (Or.inl (h2 _ hx))
          · exact List.mem_append.mpr (Or.inr hx)
    · exact ih seen result h1 h2

lemma c5core (jobTags : List JStr) (start : List JStr × List JStr)
    (h1 : start.2.Nodup) (h2 : ∀ x ∈ start.2, x ∈ start.1) :
    ((addTagsJob jobTags start.1 start.2).2.take 5).Nodup :=
  ((List.take_sublist 5 _).nodup (addTagsJob_inv jobTags start.1 start.2 h1 h2).1)

set_option maxHeartbeats 2000000 in
/-- C5 counterexample: with the single trending hashtag `"lagos"` and a job
located in Lagos, the output contains both `"lagos"` and `"Lagos"`: the dedup
key is case-sensitive, so the claimed case-insensitive (lower-cased,
`#`-stripped) dedup fails. -/
theorem c5_counterexample :
    generateJobHashtags c5job (some [str "lagos"]) =
      [str "lagos", str "Hiring", str "NigeriaJobs", str "Lagos"] ∧
    ¬ ((generateJobHashtags c5job (some [str "lagos"])).map specNormalizeTag).Nodup := by
  constructor
  · decide
  · decide

/-- C5 (amended): `generateJobHashtags` returns at most 5 entries, pairwise
distinct as stored — each entry is the `#`-stripped, trimmed form of its
source tag, and the dedup key is that form, case-sensitively (not
lower-cased). -/
theorem c5_amended (job : ConciseJobData) (trending : Option (List JStr)) :
    (generateJobHashtags job trending).length ≤ 5 ∧
      (generateJobHashtags job trending).Nodup := by
  have hstart : (trendingStart trending).2.Nodup ∧
      ∀ x ∈ (trendingStart trending).2, x ∈ (trendingStart trending).1 := by
    unfold trendingStart
    cases trending with
    | none => simp
    | some tr =>
      by_cases htr : tr.isEmpty = true
      · simp [htr]
      · simp only [htr, Bool.false_eq_true, if_false]
        exact addTagsTrending_inv _ [] [] (by simp) (by simp)
  constructor
  · exact List.length_take_le _ _
  · exact c5core _ (trendingStart trending) hstart.1 hstart.2

/-- C2 counterexample: for the empty input the extractor early-returns the
all-empty record: its location is `""` (not `"Not specified"`) and its
suggested hashtags are `[]` (not including `"hiring"`, `"jobopening"`,
`"jobs"`). -/
theorem c2_counterexample :
    (parsePastedJob 0 (str "")).map ParsedJob.location = some [] ∧
    (parsePastedJob 0 (str "")).map ParsedJob.suggestedHashtags = some [] ∧
    ([] : JStr) ≠ str "Not specified" := by
  refine ⟨?_, ?_, ?_⟩
  · decide
  · decide
  · decide

lemma orNotSpecifiedNeNil (l : JStr) : orNotSpecified l ≠ [] := by
  unfold orNotSpecified
  split
  · decide
  · next hl =>
      intro hc
      rw [hc] at hl
      exact hl rfl

/-- C2 (amended): whenever `parsePastedJob` returns a record for an input
whose trim is nonempty, the record's location is nonempty (it defaults to
`"Not specified"`); only the empty-input early return produces an empty
location, and divergence of the section scan on the cleaned description
yields no record at all. -/
theorem c2_amended (fuel : Nat) (raw : JStr) (h : jsTrim raw ≠ []) (r : ParsedJob)
    (hr : parsePastedJob fuel raw = some r) : r.location ≠ [] := by
  have hne : (jsTrim raw).isEmpty = false := by
    rcases h' : jsTrim raw with _ | _
    · exact absurd h' h
    · rfl
  unfold parsePastedJob at hr
  simp only [hne, Bool.false_eq_true, if_false] at hr
  split at hr
  · exact absurd hr (by simp)
  · rw [Option.some_inj] at hr
    subst hr
    exact orNotSpecifiedNeNil _

/-- Witness for the amended C2 at the concrete input `"hello"`. -/
theorem c2_amended_witness :
    ∃ r, parsePastedJob 0 (str "hello") = some r ∧ r.location ≠ [] := by
  have hs : (parsePastedJob 0 (str "hello")).isSome = true := by decide
  obtain ⟨r, hr⟩ := Option.isSome_iff_exists.mp hs
  exact ⟨r, hr, c2_amended 0 (str "hello") (by decide) r hr⟩

end CareerExplorers
